import Mathlib

/-!
Verification of the LogForgeryBlocker agent/proxy pipeline.

This file gives a shallow embedding, in Lean 4, of the parts of the
repository relevant to the stated claims: the SHA-256 fingerprint
(`hashlib.sha256(data.encode()).hexdigest()` in `agent/log.py`), the
`Snapshot` lifecycle, the agent-side content-request handler and
aggregate lead election, the validator worker, the proxy-side content
server, the wire-protocol framing, and the agent event loop.

Machine integers do not overflow in Python, so line counters and record
indices are modelled by `Nat`/`Int` directly; the only modular
arithmetic is the 32-bit arithmetic inside SHA-256 and the range checks
the networking code itself performs.
-/

namespace LFB

/-! ## SHA-256 (FIPS 180-4), as used by `Snapshot.hash_fun`

`agent/log.py` computes `hashlib.sha256(data.encode()).hexdigest()`:
SHA-256 over the UTF-8 encoding of the string, rendered as lowercase
hex.  The implementation below works over `List Nat` of byte values.
-/

/-- 2^32, the modulus of SHA-256 word arithmetic. -/
def w32 : Nat := 4294967296

/-- Right rotation of a 32-bit word by `n` bits. -/
def rotr (n x : Nat) : Nat := ((x >>> n) + (x <<< (32 - n))) % w32

/-- `Ch(x, y, z) = (x ∧ y) ⊕ (¬x ∧ z)` on 32-bit words. -/
def ch (x y z : Nat) : Nat := Nat.xor (Nat.land x y) (Nat.land (w32 - 1 - x % w32) z)

/-- `Maj(x, y, z) = (x ∧ y) ⊕ (x ∧ z) ⊕ (y ∧ z)`. -/
def maj (x y z : Nat) : Nat := Nat.xor (Nat.xor (Nat.land x y) (Nat.land x z)) (Nat.land y z)

/-- `Σ₀`. -/
def bsig0 (x : Nat) : Nat := Nat.xor (Nat.xor (rotr 2 x) (rotr 13 x)) (rotr 22 x)

/-- `Σ₁`. -/
def bsig1 (x : Nat) : Nat := Nat.xor (Nat.xor (rotr 6 x) (rotr 11 x)) (rotr 25 x)

/-- `σ₀`. -/
def ssig0 (x : Nat) : Nat := Nat.xor (Nat.xor (rotr 7 x) (rotr 18 x)) (x >>> 3)

/-- `σ₁`. -/
def ssig1 (x : Nat) : Nat := Nat.xor (Nat.xor (rotr 17 x) (rotr 19 x)) (x >>> 10)

/-- The 64 SHA-256 round constants. -/
def sha256K : List Nat :=
  [1116352408, 1899447441, 3049323471, 3921009573,
   961987163, 1508970993, 2453635748, 2870763221,
   3624381080, 310598401, 607225278, 1426881987,
   1925078388, 2162078206, 2614888103, 3248222580,
   3835390401, 4022224774, 264347078, 604807628,
   770255983, 1249150122, 1555081692, 1996064986,
   2554220882, 2821834349, 2952996808, 3210313671,
   3336571891, 3584528711, 113926993, 338241895,
   666307205, 773529912, 1294757372, 1396182291,
   1695183700, 1986661051, 2177026350, 2456956037,
   2730485921, 2820302411, 3259730800, 3345764771,
   3516065817, 3600352804, 4094571909, 275423344,
   430227734, 506948616, 659060556, 883997877,
   958139571, 1322822218, 1537002063, 1747873779,
   1955562222, 2024104815, 2227730452, 2361852424,
   2428436474, 2756734187, 3204031479, 3329325298]

/-- The SHA-256 initial hash value. -/
def sha256H0 : List Nat :=
  [1779033703, 3144134277, 1013904242, 2773480762,
   1359893119, 2600822924, 528734635, 1541459225]

/-- Big-endian bytes of `n`, `k` bytes wide. -/
def beBytes (k n : Nat) : List Nat :=
  match k with
  | 0 => []
  | k + 1 => (n >>> (8 * k)) % 256 :: beBytes k n

/-- SHA-256 message padding: append `0x80`, zeros, and the 64-bit
bit-length so the total length is a multiple of 64 bytes. -/
def sha256Pad (msg : List Nat) : List Nat :=
  msg ++ 0x80 :: List.replicate ((119 - msg.length % 64) % 64) 0 ++ beBytes 8 (8 * msg.length)

/-- Split a byte list into 32-bit big-endian words. -/
def toWords : List Nat → List Nat
  | b0 :: b1 :: b2 :: b3 :: rest => (((b0 * 256 + b1) * 256 + b2) * 256 + b3) :: toWords rest
  | _ => []

/-- Split a word list into 16-word (64-byte) blocks. -/
def toBlocks : List Nat → List (List Nat)
  | w0 :: w1 :: w2 :: w3 :: w4 :: w5 :: w6 :: w7 ::
    w8 :: w9 :: w10 :: w11 :: w12 :: w13 :: w14 :: w15 :: rest =>
    [w0, w1, w2, w3, w4, w5, w6, w7, w8, w9, w10, w11, w12, w13, w14, w15] :: toBlocks rest
  | _ => []

/-- Extend the 16 message words of a block to the 64-word schedule. -/
def sha256Schedule (ws : List Nat) : List Nat :=
  (List.range 48).foldl
    (fun w _ =>
      w ++ [(ssig1 (w.getD (w.length - 2) 0) + w.getD (w.length - 7) 0 +
             ssig0 (w.getD (w.length - 15) 0) + w.getD (w.length - 16) 0) % w32])
    ws

/-- One SHA-256 round: state `(a,b,c,d,e,f,g,h)` with round input `k + w`. -/
def sha256Round (st : Nat × Nat × Nat × Nat × Nat × Nat × Nat × Nat) (kw : Nat × Nat) :
    Nat × Nat × Nat × Nat × Nat × Nat × Nat × Nat :=
  match st, kw with
  | (a, b, c, d, e, f, g, h), (k, w) =>
    let t1 := (h + bsig1 e + ch e f g + k + w) % w32
    let t2 := (bsig0 a + maj a b c) % w32
    ((t1 + t2) % w32, a, b, c, (d + t1) % w32, e, f, g)

/-- Compress one 16-word block into the running 8-word hash state. -/
def sha256Compress (hs : List Nat) (block : List Nat) : List Nat :=
  let ws := sha256Schedule block
  match (sha256K.zip ws).foldl sha256Round
      (hs.getD 0 0, hs.getD 1 0, hs.getD 2 0, hs.getD 3 0,
       hs.getD 4 0, hs.getD 5 0, hs.getD 6 0, hs.getD 7 0) with
  | (a, b, c, d, e, f, g, h) =>
    [(hs.getD 0 0 + a) % w32, (hs.getD 1 0 + b) % w32, (hs.getD 2 0 + c) % w32,
     (hs.getD 3 0 + d) % w32, (hs.getD 4 0 + e) % w32, (hs.getD 5 0 + f) % w32,
     (hs.getD 6 0 + g) % w32, (hs.getD 7 0 + h) % w32]

/-- SHA-256 digest of a byte list, as 32 bytes. -/
def sha256Bytes (msg : List Nat) : List Nat :=
  ((toBlocks (toWords (sha256Pad msg))).foldl sha256Compress sha256H0).flatMap (beBytes 4)

/-- Lowercase hex digit for a value below 16. -/
def hexDigit (n : Nat) : Char :=
  if n < 10 then Char.ofNat (48 + n) else Char.ofNat (87 + n)

/-- Lowercase hex rendering of a byte list. -/
def bytesToHex (l : List Nat) : String :=
  String.mk (l.flatMap (fun b => [hexDigit (b / 16 % 16), hexDigit (b % 16)]))

/-- UTF-8 encoding of one code point (what Python's `str.encode()` emits). -/
def utf8EncodeChar (c : Nat) : List Nat :=
  if c < 0x80 then [c]
  else if c < 0x800 then [0xc0 + c / 64, 0x80 + c % 64]
  else if c < 0x10000 then [0xe0 + c / 4096, 0x80 + c / 64 % 64, 0x80 + c % 64]
  else [0xf0 + c / 262144, 0x80 + c / 4096 % 64, 0x80 + c / 64 % 64, 0x80 + c % 64]

/-- UTF-8 encoding of a string, as a byte list. -/
def utf8Encode (s : String) : List Nat :=
  s.data.flatMap (fun c => utf8EncodeChar c.toNat)

/-- `hashlib.sha256(data.encode()).hexdigest()`. -/
def sha256Hex (data : String) : String :=
  bytesToHex (sha256Bytes (utf8Encode data))

/-! ## Log model and `Snapshot` (`agent/log.py`)

`Snapshot` is mutated in place in Python; here every operation returns
the updated snapshot.  All snapshot operations are guarded by one
re-entrant lock in the source, so their visible behaviour is the
sequential one modelled here.
-/

/-- `Log` (`agent/log.py`): a name plus the backend-assigned id. -/
structure Log where
  log_name : String
  log_id : Option String
deriving DecidableEq, Repr

/-- `Record` (`agent/log.py`): one log line.  The timestamp is a
`datetime` in the source, carried but never hashed; epoch time here. -/
structure Record where
  log : Log
  data : String
  timestamp : Int
deriving DecidableEq, Repr

/-- The dictionary `Snapshot.to_dict` returns, i.e. the serialisable
view posted to the backend.  `lastLine` is `get_next_line() - 1`, which
is `-1` in Python when the snapshot is empty at line 0, so it lives in
`Int`. -/
structure UploadView where
  firstLine : Nat
  lastLine : Int
  logId : Option String
  fingerprint : String
deriving DecidableEq, Repr

/-- `Snapshot` state (`agent/log.py`): cumulative fingerprint over the
lines `[first_line, first_line + line_count)`. -/
structure Snapshot where
  log : Log
  cum_hash : String
  first_line : Nat
  line_count : Nat
deriving DecidableEq, Repr

namespace Snapshot

/-- `Snapshot.hash_fun`: `str(hashlib.sha256(data.encode()).hexdigest())`. -/
def hash_fun (data : String) : String := sha256Hex data

/-- `Snapshot.__init__(log, first_line)`. -/
def init (log : Log) (first_line : Nat := 0) : Snapshot :=
  { log := log, cum_hash := hash_fun "", first_line := first_line, line_count := 0 }

/-- `Snapshot.add_record`: fold the record's data into the cumulative
hash and count the line. -/
def add_record (s : Snapshot) (record : Record) : Snapshot :=
  { s with cum_hash := hash_fun (s.cum_hash ++ record.data),
           line_count := s.line_count + 1 }

/-- `Snapshot.get_next_line`: last (exclusive) line of the snapshot. -/
def get_next_line (s : Snapshot) : Nat := s.first_line + s.line_count

/-- `Snapshot.to_dict`: the serialisable view (`get_hash` returns
`str(self)` which is `cum_hash`). -/
def to_dict (s : Snapshot) : UploadView :=
  { firstLine := s.first_line,
    lastLine := (s.get_next_line : Int) - 1,
    logId := s.log.log_id,
    fingerprint := s.cum_hash }

/-- `Snapshot.reset`: rebase to the old `next_line` with an empty hash. -/
def reset (s : Snapshot) : Snapshot :=
  { s with first_line := s.get_next_line, line_count := 0, cum_hash := hash_fun "" }

/-- `Snapshot.upload_prep`: take the serialisable view and reset, in
one critical section; returns the view and the post-reset snapshot. -/
def upload_prep (s : Snapshot) : UploadView × Snapshot :=
  (s.to_dict, s.reset)

end Snapshot

/-! ## Runs of snapshot operations (claims C1, C2) -/

/-- A run of `add_record` calls. -/
def applyAdds (s : Snapshot) (rs : List Record) : Snapshot :=
  rs.foldl Snapshot.add_record s

/-- The specification-side fold of claim C1: `h₀ = H("")`,
`hᵢ = H(h₍ᵢ₋₁₎ ++ rᵢ.data)`. -/
def specFold (rs : List Record) : String :=
  rs.foldl (fun h r => Snapshot.hash_fun (h ++ r.data)) (Snapshot.hash_fun "")

/-- One snapshot lifecycle event of a sequential interleaving:
an `add_record` call or an `upload_prep` call. -/
inductive SnapOp where
  | add (r : Record)
  | upload
deriving DecidableEq, Repr

/-- Run an interleaving of `add_record` and `upload_prep` calls,
collecting the views the `upload_prep` calls return, in order. -/
def runOps : Snapshot → List SnapOp → Snapshot × List UploadView
  | s, [] => (s, [])
  | s, SnapOp.add r :: ops => runOps (s.add_record r) ops
  | s, SnapOp.upload :: ops =>
    let p := s.upload_prep
    let rest := runOps p.2 ops
    (rest.1, p.1 :: rest.2)

/-- Number of `add_record` calls in a run. -/
def countAdds (ops : List SnapOp) : Nat :=
  ops.countP (fun o => match o with | SnapOp.add _ => true | SnapOp.upload => false)

/-- The lines `[firstLine, lastLine]` an uploaded view covers. -/
def viewLines (v : UploadView) : List Nat :=
  List.range' v.firstLine (v.lastLine + 1 - v.firstLine).toNat

/-- The views the backend actually receives: `post_snapshot`
(`agent/backend_connector.py`) posts a view only when
`firstLine <= lastLine`. -/
def postedViews (views : List UploadView) : List UploadView :=
  views.filter (fun v => (v.firstLine : Int) ≤ v.lastLine)

/-! ## `ListLogCollector` (`agent/collector.py`) -/

/-- `ListLogCollector`: the `log_name → Snapshot` map, as an
association list in insertion order (Python dicts iterate in insertion
order). -/
structure ListLogCollector where
  snapshots : List (String × Snapshot)
deriving DecidableEq, Repr

namespace ListLogCollector

/-- `self.snapshots.get(name)`. -/
def find_snapshot (c : ListLogCollector) (name : String) : Option Snapshot :=
  (c.snapshots.find? (fun p => p.1 == name)).map Prod.snd

/-- `ListLogCollector.get_log_position`: `snapshot.get_next_line()`,
or `0` when the log is unknown. -/
def get_log_position (c : ListLogCollector) (log : Log) : Nat :=
  match c.find_snapshot log.log_name with
  | none => 0
  | some s => s.get_next_line

/-- `ListLogCollector.upload_records`: `post_snapshot` every snapshot
(`agent/backend_connector.py`), i.e. `upload_prep` each one — leaving
it reset — and post the views with `firstLine <= lastLine`. -/
def upload_records (c : ListLogCollector) : ListLogCollector × List UploadView :=
  (⟨c.snapshots.map (fun p => (p.1, p.2.reset))⟩,
   postedViews (c.snapshots.map (fun p => p.2.to_dict)))

end ListLogCollector

/-! ## `ContentRequest` and `ContentRequestHandler` (`agent/proxyconnection.py`)

A `ContentRequest` object outlives its handler-map entry: when
`ContentRequestHandler.set_status` moves a request to a terminal status
it also deletes the map entry, but the aggregate (`AgentContentRequest`)
still holds the object.  A request is therefore modelled as a `ReqCell`:
the object state plus an `inMap` flag for membership in the handler's
`__requests` dictionary.
-/

/-- `ContentRequest.Status` (`agent/proxyconnection.py`). -/
inductive ContentRequest.Status where
  | PENDING
  | RECEIVING
  | CLOSED
  | NOT_FOUND
  | DROPPED
deriving DecidableEq, Repr

/-- `ContentRequest` object state. -/
structure ContentRequest where
  request_id : Nat
  log : Log
  begin_record : Nat
  next_record_ind : Nat
  end_record : Nat
  status : ContentRequest.Status
  content : List String
deriving DecidableEq, Repr

namespace ContentRequest

/-- `ContentRequest.__init__`. -/
def init (request_id : Nat) (log : Log) (begin_record end_record : Nat) : ContentRequest :=
  { request_id := request_id, log := log, begin_record := begin_record,
    next_record_ind := begin_record, end_record := end_record,
    status := Status.PENDING, content := [] }

/-- `got_all_requested_records`: `next_record_ind == end_record + 1`. -/
def got_all_requested_records (r : ContentRequest) : Bool :=
  r.next_record_ind == r.end_record + 1

/-- `is_finished`: all requested records received and popped. -/
def is_finished (r : ContentRequest) : Bool :=
  r.got_all_requested_records && r.content.isEmpty

/-- `add_record`: enqueue one record and advance `next_record_ind`. -/
def add_record (r : ContentRequest) (record : String) : ContentRequest :=
  { r with content := r.content ++ [record], next_record_ind := r.next_record_ind + 1 }

/-- `pop_record`: dequeue the front record, `none` when empty. -/
def pop_record (r : ContentRequest) : Option String × ContentRequest :=
  match r.content with
  | [] => (none, r)
  | x :: rest => (some x, { r with content := rest })

/-- `set_status` on the object. -/
def set_status (r : ContentRequest) (status : Status) : ContentRequest :=
  { r with status := status }

end ContentRequest

/-- The statuses on which `ContentRequestHandler.set_status` deletes
the request from its map: `NOT_FOUND`, `CLOSED`, `DROPPED`. -/
def terminalStatus (st : ContentRequest.Status) : Bool :=
  match st with
  | ContentRequest.Status.NOT_FOUND => true
  | ContentRequest.Status.CLOSED => true
  | ContentRequest.Status.DROPPED => true
  | _ => false

/-- A `ContentRequest` object together with its membership in the
owning handler's `__requests` map. -/
structure ReqCell where
  req : ContentRequest
  inMap : Bool
deriving DecidableEq, Repr

/-- Handler state: cell `i` is the request with id `i`
(`__get_next_request_id` hands out 0, 1, 2, …); `next_request_id` is
the list length. -/
abbrev Handler := List ReqCell

namespace ContentRequestHandler

/-- `create_request`: allocate the next id and register a pending
request. -/
def create_request (h : Handler) (log : Log) (begin_record end_record : Nat) : Handler :=
  h ++ [⟨ContentRequest.init h.length log begin_record end_record, true⟩]

/-- `add_records`: silently ignore unknown ids; raise `ValueError` when
all requested records are already in, or when `begin_record` is not the
request's `next_record_ind`; otherwise append every record. -/
def add_records (h : Handler) (request_id begin_record : Nat) (records : List String) :
    Except String Handler :=
  match h[request_id]? with
  | none => Except.ok h
  | some cell =>
    if !cell.inMap then Except.ok h
    else if cell.req.got_all_requested_records then
      Except.error "got next records for a request, although all requested records have already been sent"
    else if cell.req.next_record_ind != begin_record then
      Except.error "invalid begin_record"
    else Except.ok (h.set request_id ⟨records.foldl ContentRequest.add_record cell.req, true⟩)

/-- `set_status`: silently ignore unknown ids; otherwise set the object
status and delete the map entry when the status is terminal. -/
def set_status (h : Handler) (request_id : Nat) (st : ContentRequest.Status) : Handler :=
  match h[request_id]? with
  | none => h
  | some cell =>
    if cell.inMap then h.set request_id ⟨cell.req.set_status st, !terminalStatus st⟩
    else h

/-- `ProxyConnection.drop_content_request`: `set_status(id, DROPPED)`. -/
def drop_content_request (h : Handler) (request_id : Nat) : Handler :=
  set_status h request_id ContentRequest.Status.DROPPED

end ContentRequestHandler

/-! ## `AgentContentRequest` (`agent/lfb_agent.py`)

The aggregate of one `GetLogContent` fan-out: per proxy connection one
`ContentRequest` (each connection's own `ContentRequestHandler` holds
it), the aggregate's `__requests` list (as indices into `cells`, in
append order), the elected `__lead`, and the log of wire messages the
modelled operations have sent.
-/

/-- A message sent to a proxy.  `request_content` sends
`GetLogContentNetworkMessage`; no other send happens on the fan-out or
drop paths. -/
inductive WireOut where
  | getLogContent (conn : Nat) (log : Log) (request_id begin_record end_record : Nat)
deriving DecidableEq, Repr

/-- Wire `LogContentStatus` values (`networking.py`:
`FOUND_AND_BEGIN_SEND = 0`, `END_SEND = 1`, `NOT_FOUND = -1`). -/
inductive WStatus where
  | found
  | endSend
  | notFound
deriving DecidableEq, Repr

/-- The `ContentRequest.Status` the agent's deserializer maps each wire
status to (`AgentMessageDeserializer.deserialize`). -/
def wstatusToStatus : WStatus → ContentRequest.Status
  | WStatus.found => ContentRequest.Status.RECEIVING
  | WStatus.notFound => ContentRequest.Status.NOT_FOUND
  | WStatus.endSend => ContentRequest.Status.CLOSED

/-- Aggregate state.  `cells` holds every child request object
(index = connection), `active` is `AgentContentRequest.__requests`,
`lead` is `__lead`, `sent` records wire messages sent so far. -/
structure AgentContentRequest where
  cells : List ReqCell
  active : List Nat
  lead : Option Nat
  sent : List WireOut
deriving DecidableEq, Repr

namespace AgentContentRequest

/-- `req.get_status()` as the aggregate reads it: the object status,
regardless of handler-map membership (missing indices — which a
well-formed aggregate never holds — read as `PENDING`). -/
def statusOf (cells : List ReqCell) (i : Nat) : ContentRequest.Status :=
  match cells[i]? with
  | some c => c.req.status
  | none => ContentRequest.Status.PENDING

/-- `LfbAgent.request_log_content`: create one pending request per
connected proxy (each connection's fresh handler allocates id 0), send
it `GetLogContent`, and bundle the pairs in connection order. -/
def request_log_content (conns : Nat) (log : Log) (begin_record end_record : Nat) :
    AgentContentRequest :=
  { cells := List.replicate conns ⟨ContentRequest.init 0 log begin_record end_record, true⟩,
    active := List.range conns,
    lead := none,
    sent := (List.range conns).map (fun c => WireOut.getLogContent c log 0 begin_record end_record) }

/-- The scan of `__try_resolve_lead`, which walks `__requests` from the
last (newest) entry down, deleting `NOT_FOUND`/`DROPPED` children and
stopping at the first `RECEIVING`/`CLOSED` one.  Input and output are
the active list in newest-first order; returns the found lead, if any,
and the list as the scan leaves it. -/
def scanRev (cells : List ReqCell) : List Nat → Option Nat × List Nat
  | [] => (none, [])
  | i :: rest =>
    match statusOf cells i with
    | ContentRequest.Status.RECEIVING => (some i, i :: rest)
    | ContentRequest.Status.CLOSED => (some i, i :: rest)
    | ContentRequest.Status.NOT_FOUND => scanRev cells rest
    | ContentRequest.Status.DROPPED => scanRev cells rest
    | ContentRequest.Status.PENDING =>
      let p := scanRev cells rest
      (p.1, i :: p.2)

/-- `__select_lead`'s drop loop: `con.drop_content_request(req)` for
every surviving child other than the lead — a handler-local status
change; nothing is sent on the wire. -/
def dropOthers (cells : List ReqCell) (lead : Nat) (others : List Nat) : List ReqCell :=
  others.foldl
    (fun cs j => if j = lead then cs else ContentRequestHandler.drop_content_request cs j)
    cells

/-- `__try_resolve_lead` followed, when a lead is found, by
`__select_lead` (drop all other surviving children, clear the list). -/
def try_resolve_lead (s : AgentContentRequest) : AgentContentRequest :=
  let p := scanRev s.cells s.active.reverse
  match p.1 with
  | some l =>
    { s with cells := dropOthers s.cells l p.2, active := [], lead := some l }
  | none => { s with active := p.2.reverse }

/-- `get_lead`: lazily resolve, then return the lead. -/
def get_lead (s : AgentContentRequest) : AgentContentRequest × Option Nat :=
  if s.lead.isSome then (s, s.lead)
  else
    let s' := try_resolve_lead s
    (s', s'.lead)

/-- `is_dead`: no lead elected and no children left. -/
def is_dead (s : AgentContentRequest) : Bool :=
  s.lead.isNone && s.active.isEmpty

end AgentContentRequest

/-- One observable event on an aggregate: a `LogContentStatus` wire
message for child `conn` (dispatched to that connection's handler), a
`LogContentData` batch for child `conn` (an invalid batch raises and
leaves the handler unchanged), or a `get_lead` evaluation. -/
inductive AggEvent where
  | wireStatus (conn : Nat) (ws : WStatus)
  | wireData (conn : Nat) (begin_record : Nat) (records : List String)
  | getLead
deriving DecidableEq, Repr

/-- Step an aggregate by one event. -/
def stepAgg (s : AgentContentRequest) : AggEvent → AgentContentRequest
  | AggEvent.wireStatus conn ws =>
    { s with cells := ContentRequestHandler.set_status s.cells conn (wstatusToStatus ws) }
  | AggEvent.wireData conn begin_record records =>
    match ContentRequestHandler.add_records s.cells conn begin_record records with
    | Except.ok cs => { s with cells := cs }
    | Except.error _ => s
  | AggEvent.getLead => (AgentContentRequest.get_lead s).1

/-- Run a sequence of aggregate events. -/
def runAgg (s : AgentContentRequest) (evs : List AggEvent) : AgentContentRequest :=
  evs.foldl stepAgg s

/-! ## `_LogValidatorJob` and the validator worker (`agent/validator.py`) -/

/-- One backend snapshot `{firstLine, lastLine, fingerprint}` as
returned by `GET /snapshot/agent_for_log/{id}`. -/
structure SnapshotEntry where
  firstLine : Nat
  lastLine : Nat
  fingerprint : String
deriving DecidableEq, Repr

/-- A `POST /log/{id}/verification` call: the log id and `isCorrect`. -/
abbrev VerificationPost := Option String × Bool

/-- `_LogValidatorJob` state. -/
structure LogValidatorJob where
  job : AgentContentRequest
  log : Log
  remaining_snapshots : List SnapshotEntry
  fingerprint : String
  records_counter : Nat
  validation_finished : Bool
deriving DecidableEq, Repr

namespace LogValidatorJob

/-- `__finish_validation`: post
`len(remaining_snapshots) == 0 and self.fingerprint == fingerprint`
once; later calls are no-ops. -/
def finish_validation (j : LogValidatorJob) (fingerprint : String) :
    LogValidatorJob × List VerificationPost :=
  if j.validation_finished then (j, [])
  else
    ({ j with validation_finished := true },
     [(j.log.log_id, j.remaining_snapshots.isEmpty && (j.fingerprint == fingerprint))])

/-- `_LogValidatorJob.__init__`: a job over an empty snapshot list
finishes immediately (with `isCorrect = true`). -/
def init (snapshots : List SnapshotEntry) (request : AgentContentRequest) (log : Log) :
    LogValidatorJob × List VerificationPost :=
  let j : LogValidatorJob :=
    { job := request, log := log, remaining_snapshots := snapshots,
      fingerprint := Snapshot.hash_fun "", records_counter := 0,
      validation_finished := false }
  if snapshots.length = 0 then j.finish_validation (Snapshot.hash_fun "") else (j, [])

/-- `__handle_new_record`.  `remaining_snapshots[0]` raises
`IndexError` when the list is empty (only reachable with
`validation_finished` still false, which the source never produces). -/
def handle_new_record (j : LogValidatorJob) (new_record : String) :
    Except String (LogValidatorJob × List VerificationPost) :=
  if j.validation_finished then Except.ok (j, [])
  else
    match j.remaining_snapshots with
    | [] => Except.error "IndexError"
    | next :: rest =>
      let j1 := { j with records_counter := j.records_counter + 1,
                         fingerprint := Snapshot.hash_fun (j.fingerprint ++ new_record) }
      if next.lastLine < j1.records_counter then
        let j2 := { j1 with remaining_snapshots := rest }
        let r :=
          if j2.fingerprint != next.fingerprint || rest.isEmpty then
            j2.finish_validation next.fingerprint
          else (j2, [])
        Except.ok ({ r.1 with fingerprint := Snapshot.hash_fun "" }, r.2)
      else Except.ok (j1, [])

end LogValidatorJob

/-- The `while new_record := lead.pop_record():` drain:
pop until the queue is empty or a falsy (empty-string) record is
popped; the falsy record is consumed but not handled.  Returns the
handled records and the queue as the loop leaves it. -/
def drainQueue : List String → List String × List String
  | [] => ([], [])
  | r :: rest =>
    if r = "" then ([], rest)
    else
      let p := drainQueue rest
      (r :: p.1, p.2)

/-- Overwrite the record queue of cell `l`. -/
def setCellQueue (cells : List ReqCell) (l : Nat) (q : List String) : List ReqCell :=
  match cells[l]? with
  | none => cells
  | some cell => cells.set l ⟨{ cell.req with content := q }, cell.inMap⟩

namespace LogValidatorJob

/-- Handle a list of drained records in order. -/
def handle_all (j : LogValidatorJob) (records : List String) :
    Except String (LogValidatorJob × List VerificationPost) :=
  match records with
  | [] => Except.ok (j, [])
  | r :: rs => do
    let p ← j.handle_new_record r
    let q ← p.1.handle_all rs
    Except.ok (q.1, p.2 ++ q.2)

/-- `do_work`: evaluate `get_lead` (which may elect and drop), then
drain the lead's record queue through `__handle_new_record`. -/
def do_work (j : LogValidatorJob) : Except String (LogValidatorJob × List VerificationPost) :=
  let gl := AgentContentRequest.get_lead j.job
  match gl.2 with
  | none => Except.ok ({ j with job := gl.1 }, [])
  | some l =>
    let q := match gl.1.cells[l]? with
      | some c => c.req.content
      | none => []
    let d := drainQueue q
    let j1 := { j with job := { gl.1 with cells := setCellQueue gl.1.cells l d.2 } }
    j1.handle_all d.1

/-- `work_in_progress`: a dead aggregate finishes the job (posting
failure) and drops it; otherwise the job stays queued while there is no
lead yet or the lead is still `PENDING`/`RECEIVING`. -/
def work_in_progress (j : LogValidatorJob) :
    (LogValidatorJob × List VerificationPost) × Bool :=
  if AgentContentRequest.is_dead j.job then (j.finish_validation "", false)
  else
    let gl := AgentContentRequest.get_lead j.job
    let j0 := { j with job := gl.1 }
    match gl.2 with
    | none => ((j0, []), true)
    | some l =>
      let st := AgentContentRequest.statusOf gl.1.cells l
      ((j0, []),
       st == ContentRequest.Status.PENDING || st == ContentRequest.Status.RECEIVING)

end LogValidatorJob

/-- One pass of `LogValidator.__worker_thread`: `do_work` every job,
keep those still `work_in_progress`, collect every backend post. -/
def worker_tick : List LogValidatorJob →
    Except String (List LogValidatorJob × List VerificationPost)
  | [] => Except.ok ([], [])
  | j :: rest => do
    let w ← j.do_work
    let p := w.1.work_in_progress
    let r ← worker_tick rest
    Except.ok ((if p.2 then [p.1.1] else []) ++ r.1, w.2 ++ p.1.2 ++ r.2)

/-- One event on a connection's `ContentRequestHandler`: a new fan-out
request, a wire `LogContentStatus`, or a wire `LogContentData` (whose
`ValueError` leaves the handler unchanged — the raise happens before
any mutation). -/
inductive HEvent where
  | create (log : Log) (begin_record end_record : Nat)
  | wireStatus (request_id : Nat) (st : ContentRequest.Status)
  | wireData (request_id begin_record : Nat) (records : List String)
deriving DecidableEq, Repr

/-- Step a handler by one event. -/
def stepHandler (h : Handler) : HEvent → Handler
  | HEvent.create log b e => ContentRequestHandler.create_request h log b e
  | HEvent.wireStatus i st => ContentRequestHandler.set_status h i st
  | HEvent.wireData i b rs =>
    match ContentRequestHandler.add_records h i b rs with
    | Except.ok h' => h'
    | Except.error _ => h

/-- Run a sequence of handler events. -/
def runHandler (h : Handler) (evs : List HEvent) : Handler :=
  evs.foldl stepHandler h

/-- Handler-consistency of an aggregate: a child whose object status is
`NOT_FOUND` or `DROPPED` is no longer in its handler's map (the only
code that sets those statuses deletes the entry in the same call).  -/
def aggInv (s : AgentContentRequest) : Prop :=
  ∀ c ∈ s.cells,
    (c.req.status = ContentRequest.Status.NOT_FOUND ∨
     c.req.status = ContentRequest.Status.DROPPED) → c.inMap = false

/-- The pointwise effect of one `drop_content_request`. -/
def dropT (c : ReqCell) : ReqCell :=
  if c.inMap then ⟨c.req.set_status ContentRequest.Status.DROPPED, false⟩ else c

/-- A child is an election candidate when its object status is
`RECEIVING` or `CLOSED`. -/
def isCandidate (cells : List ReqCell) (i : Nat) : Bool :=
  AgentContentRequest.statusOf cells i == ContentRequest.Status.RECEIVING ||
    AgentContentRequest.statusOf cells i == ContentRequest.Status.CLOSED

/-! ## Proxy content server (`proxy/filesystem/contentmanager.py`) -/

/-- `BATCH_SIZE`: maximum record count for one `LogContentData`. -/
def BATCH_SIZE : Nat := 20

/-- Python `str.rstrip()`'s ASCII whitespace set. -/
def pyWhitespace (c : Char) : Bool :=
  c == ' ' || c == '\t' || c == '\n' || c == '\x0d' || c == '\x0b' || c == '\x0c'

/-- `r.rstrip()`: drop trailing whitespace. -/
def rstrip (s : String) : String :=
  String.mk ((s.data.reverse.dropWhile pyWhitespace).reverse)

/-- A message the content server sends back on its connection. -/
inductive ProxyMsg where
  | status (request_id : Nat) (st : WStatus)
  | data (request_id begin_record end_record : Nat) (records : List String)
deriving DecidableEq, Repr

/-- `LogStream.__init__`: open the file and skip `begin_record` lines
with `next(...)`, which raises `StopIteration` when the file holds
fewer lines.  The file is its list of lines (terminators included, as
Python file iteration yields them). -/
def logStreamInit (file : List String) (begin_record : Nat) : Except String (List String) :=
  if begin_record ≤ file.length then Except.ok (file.drop begin_record)
  else Except.error "StopIteration"

/-- The batch loop of `handle_log_content_request`: while
`record <= end_record`, read up to `min(end_record - record + 1, 20)`
records, stop on a zero-length read, else send them (rstripped) and
advance. -/
def serveLoop (stream : List String) (request_id record end_record : Nat) : List ProxyMsg :=
  if h : record ≤ end_record then
    let to_send := min (end_record - record + 1) BATCH_SIZE
    let records := stream.take to_send
    if hc : records.length = 0 then []
    else
      ProxyMsg.data request_id record (record + records.length - 1) (records.map rstrip)
        :: serveLoop (stream.drop to_send) request_id (record + records.length) end_record
  else []
  termination_by end_record + 1 - record
  decreasing_by
    exact Nat.sub_lt_sub_left (Nat.lt_succ_of_le h)
      (Nat.lt_add_of_pos_right (Nat.pos_of_ne_zero hc))

/-- `FileLogContentManager.handle_log_content_request`.  Returns the
messages sent on the connection, and `false` when the uncaught
`StopIteration` from the line skip aborted the handler. -/
def handle_log_content_request (has_watch : Bool) (file : List String)
    (request_id begin_record end_record : Nat) : List ProxyMsg × Bool :=
  if !has_watch then ([ProxyMsg.status request_id WStatus.notFound], true)
  else
    match logStreamInit file begin_record with
    | Except.error _ => ([ProxyMsg.status request_id WStatus.found], false)
    | Except.ok stream =>
      (ProxyMsg.status request_id WStatus.found ::
        (serveLoop stream request_id begin_record end_record ++
          [ProxyMsg.status request_id WStatus.endSend]), true)

/-- Batch-chain check for claim C5: every message is a `LogContentData`
for this request, holds between 1 and `BATCH_SIZE` records, starts
exactly where the previous batch ended, and declares
`end_record = begin_record + count - 1`. -/
def goodBatches (request_id : Nat) : Nat → List ProxyMsg → Bool
  | _, [] => true
  | start, ProxyMsg.data rid b e recs :: rest =>
    rid == request_id && b == start && decide (0 < recs.length) &&
      recs.length ≤ BATCH_SIZE && e + 1 == b + recs.length &&
      goodBatches request_id (b + recs.length) rest
  | _, ProxyMsg.status _ _ :: _ => false

/-! ## Wire protocol framing (`networking.py`) and the payload schema

The payload of each message is built with the generated protobuf
module `protobuf/agentcom_pb2`, which is part of the repository but not
under `src/`.  Modelled from the spec: "Payload is a typed structured
record (an external schema library is assumed; the schema contains only
the fields below)" — the six payload schemas `Log{name}`,
`Record{log, message, timestamp}`, `LogPosition{log, position}`,
`LogContentRequest{log, request_id, begin_record, end_record}`,
`LogContentResponse{request_id, status}` and
`LogContentData{request_id, begin_record, end_record, contents}` are
encoded field by field with a concrete invertible byte encoding
(fixed-width unsigned 64-bit integers, sign-byte integers, char-counted
strings of 3-byte code points); any encoding the schema library makes
invertible serves the framing claim equally.
-/

deriving instance DecidableEq for Except

/-- The in-memory network messages (`networking.py`), one constructor
per `NetworkMessageType`.  Each carries exactly the fields of the
corresponding `*NetworkMessage` class. -/
inductive NetMsg where
  | addRecord (record : Record)
  | getLogPosition (log : Log)
  | logPositionResponse (log : Log) (position : Nat)
  | getLogContent (log : Log) (request_id begin_record end_record : Nat)
  | logContentStatus (request_id : Nat) (status : WStatus)
  | logContentData (request_id begin_record end_record : Nat) (contents : List String)
deriving DecidableEq, Repr

namespace NetMsg

/-- `NetworkMessageType` values. -/
def get_type : NetMsg → Nat
  | addRecord _ => 1
  | getLogPosition _ => 2
  | logPositionResponse _ _ => 3
  | getLogContent _ _ _ _ => 4
  | logContentStatus _ _ => 5
  | logContentData _ _ _ _ => 6

end NetMsg

/-- `LogContentStatusNetworkMessage.Status.value`. -/
def wstatusVal : WStatus → Int
  | WStatus.found => 0
  | WStatus.endSend => 1
  | WStatus.notFound => -1

/-- `LogContentStatusNetworkMessage.Status(value)`: raises on an
unknown value. -/
def wstatusOfVal (v : Int) : Except String WStatus :=
  if v = 0 then Except.ok WStatus.found
  else if v = 1 then Except.ok WStatus.endSend
  else if v = -1 then Except.ok WStatus.notFound
  else Except.error "invalid status value"

/-- Modelled from the spec: schema encoding of an unsigned 64-bit
integer field. -/
def encNat64 (n : Nat) : List Nat := beBytes 8 n

/-- Modelled from the spec: schema encoding of a signed integer field
(sign byte plus 64-bit magnitude). -/
def encInt (i : Int) : List Nat :=
  (if i < 0 then 1 else 0) :: beBytes 8 i.natAbs

/-- Modelled from the spec: schema encoding of one code point as three
bytes. -/
def encChar (c : Char) : List Nat := beBytes 3 c.toNat

/-- Modelled from the spec: schema encoding of a string field — a
32-bit char count followed by the code points. -/
def encString (s : String) : List Nat :=
  beBytes 4 s.length ++ s.data.flatMap encChar

/-- Modelled from the spec: schema encoding of a repeated string field. -/
def encStrList (l : List String) : List Nat :=
  beBytes 4 l.length ++ l.flatMap encString

/-- Modelled from the spec: `SerializeToString` of each payload schema,
with the fields §4.2 lists for that message kind (`parse_log` keeps
only the log name, so only the name is carried). -/
def payload : NetMsg → List Nat
  | NetMsg.addRecord r => encString r.log.log_name ++ encString r.data ++ encInt r.timestamp
  | NetMsg.getLogPosition log => encString log.log_name
  | NetMsg.logPositionResponse log pos => encString log.log_name ++ encNat64 pos
  | NetMsg.getLogContent log rid b e =>
    encString log.log_name ++ encNat64 rid ++ encNat64 b ++ encNat64 e
  | NetMsg.logContentStatus rid st => encNat64 rid ++ encInt (wstatusVal st)
  | NetMsg.logContentData rid b e contents =>
    encNat64 rid ++ encNat64 b ++ encNat64 e ++ encStrList contents

/-- `NetworkMessage.serialize`: `[1 byte type][4 bytes big-endian
length][payload]`.  The type must fit one byte; `int.to_bytes(length,
4)` raises `OverflowError` when the payload length needs more than four
bytes. -/
def serialize (m : NetMsg) : Except String (List Nat) :=
  let t := m.get_type
  let contents := payload m
  if 255 < t then Except.error "type is out of range"
  else if 4294967296 ≤ contents.length then Except.error "OverflowError"
  else Except.ok (t :: beBytes 4 contents.length ++ contents)

/-- Read `k` big-endian bytes into an accumulator
(`int.from_bytes(..., byteorder='big')`). -/
def readBE : Nat → Nat → List Nat → Except String (Nat × List Nat)
  | 0, acc, l => Except.ok (acc, l)
  | k + 1, acc, b :: rest => readBE k (acc * 256 + b) rest
  | _ + 1, _, [] => Except.error "short read"

/-- Decode an unsigned 64-bit integer field. -/
def decNat64 (l : List Nat) : Except String (Nat × List Nat) := readBE 8 0 l

/-- Decode a signed integer field. -/
def decInt : List Nat → Except String (Int × List Nat)
  | [] => Except.error "short read"
  | sgn :: rest => do
    let p ← readBE 8 0 rest
    Except.ok (if sgn = 0 then (p.1 : Int) else -(p.1 : Int), p.2)

/-- Decode `count` code points. -/
def decChars : Nat → List Nat → Except String (List Char × List Nat)
  | 0, l => Except.ok ([], l)
  | k + 1, l => do
    let c ← readBE 3 0 l
    let p ← decChars k c.2
    Except.ok (Char.ofNat c.1 :: p.1, p.2)

/-- Decode a string field. -/
def decString (l : List Nat) : Except String (String × List Nat) := do
  let n ← readBE 4 0 l
  let cs ← decChars n.1 n.2
  Except.ok (String.mk cs.1, cs.2)

/-- Decode `count` string fields. -/
def decStrings : Nat → List Nat → Except String (List String × List Nat)
  | 0, l => Except.ok ([], l)
  | k + 1, l => do
    let s ← decString l
    let p ← decStrings k s.2
    Except.ok (s.1 :: p.1, p.2)

/-- Decode a repeated string field. -/
def decStrList (l : List Nat) : Except String (List String × List Nat) := do
  let n ← readBE 4 0 l
  decStrings n.1 n.2

/-- A parse that must consume the whole payload
(`ParseFromString` rejects trailing bytes). -/
def exactly {α : Type} (p : α × List Nat) : Except String α :=
  if p.2 = [] then Except.ok p.1 else Except.error "trailing payload bytes"

/-- The `from_raw` constructor of each message kind, dispatched on the
frame's type code the way `AgentMessageDeserializer`/the proxy
deserializer do; an unknown type code raises `ValueError`.
`DeserializationHelper.parse_log` rebuilds `Log(name)` with no id.
`LogContentDataNetworkMessage.from_raw` validates the record indices
against the record count. -/
def from_raw (t : Nat) (contents : List Nat) : Except String NetMsg :=
  if t = 1 then do
    let name ← decString contents
    let data ← decString name.2
    let ts ← decInt data.2
    let tsv ← exactly ts
    Except.ok (NetMsg.addRecord ⟨⟨name.1, none⟩, data.1, tsv⟩)
  else if t = 2 then do
    let name ← decString contents
    let nv ← exactly name
    Except.ok (NetMsg.getLogPosition ⟨nv, none⟩)
  else if t = 3 then do
    let name ← decString contents
    let pos ← decNat64 name.2
    let pv ← exactly pos
    Except.ok (NetMsg.logPositionResponse ⟨name.1, none⟩ pv)
  else if t = 4 then do
    let name ← decString contents
    let rid ← decNat64 name.2
    let b ← decNat64 rid.2
    let e ← decNat64 b.2
    let ev ← exactly e
    Except.ok (NetMsg.getLogContent ⟨name.1, none⟩ rid.1 b.1 ev)
  else if t = 5 then do
    let rid ← decNat64 contents
    let sv ← decInt rid.2
    let svv ← exactly sv
    let st ← wstatusOfVal svv
    Except.ok (NetMsg.logContentStatus rid.1 st)
  else if t = 6 then do
    let rid ← decNat64 contents
    let b ← decNat64 rid.2
    let e ← decNat64 b.2
    let cs ← decStrList e.2
    let csv ← exactly cs
    if e.1 < b.1 ∨ e.1 - b.1 + 1 ≠ csv.length then
      Except.error "invalid begin/end record indices"
    else Except.ok (NetMsg.logContentData rid.1 b.1 e.1 csv)
  else Except.error "incorrect message type"

/-- The receive path (`NetworkConnection.receive`): read the 5-byte
header into `NetworkMessageMeta`, read the declared body length, build
the `RawNetworkMessage`, and hand it to the deserializer's `from_raw`. -/
def decodeFrame : List Nat → Except String NetMsg
  | t :: l1 :: l2 :: l3 :: l4 :: body =>
    let len := ((l1 * 256 + l2) * 256 + l3) * 256 + l4
    if body.length < len then Except.error "invalid contents length"
    else from_raw t (body.take len)
  | _ => Except.error "short header"

/-- The wellformedness the schema imposes on a message: numeric fields
are `uint64`, char counts fit the 32-bit length fields, and a
`LogContentData` satisfies the record-count invariant its constructor
enforces (`begin_record <= end_record`,
`len(records) == end_record - begin_record + 1`). -/
def wfNetMsg : NetMsg → Prop
  | NetMsg.addRecord r => r.data.length < 4294967296 ∧ r.log.log_name.length < 4294967296 ∧
      r.timestamp.natAbs < 18446744073709551616
  | NetMsg.getLogPosition log => log.log_name.length < 4294967296
  | NetMsg.logPositionResponse log pos =>
      log.log_name.length < 4294967296 ∧ pos < 18446744073709551616
  | NetMsg.getLogContent log rid b e => log.log_name.length < 4294967296 ∧
      rid < 18446744073709551616 ∧ b < 18446744073709551616 ∧ e < 18446744073709551616
  | NetMsg.logContentStatus rid _ => rid < 18446744073709551616
  | NetMsg.logContentData rid b e contents =>
      rid < 18446744073709551616 ∧ b < 18446744073709551616 ∧ e < 18446744073709551616 ∧
      contents.length < 4294967296 ∧ (∀ s ∈ contents, s.length < 4294967296) ∧
      b ≤ e ∧ contents.length = e - b + 1

/-- The backend-assigned `log_id` is not part of any payload schema:
`parse_log` reconstructs `Log(name)` with `id = None`. -/
def stripLogId : NetMsg → NetMsg
  | NetMsg.addRecord r => NetMsg.addRecord ⟨⟨r.log.log_name, none⟩, r.data, r.timestamp⟩
  | NetMsg.getLogPosition log => NetMsg.getLogPosition ⟨log.log_name, none⟩
  | NetMsg.logPositionResponse log pos => NetMsg.logPositionResponse ⟨log.log_name, none⟩ pos
  | NetMsg.getLogContent log rid b e => NetMsg.getLogContent ⟨log.log_name, none⟩ rid b e
  | NetMsg.logContentStatus rid st => NetMsg.logContentStatus rid st
  | NetMsg.logContentData rid b e contents => NetMsg.logContentData rid b e contents

/-! ## The agent event loop (`LfbAgent.handle_clients`) -/

/-- What processing one connection's pending messages does during one
sweep: succeed, raise `ConnectionError` (remote closed), or raise a
protocol-violation `ValueError` (bad type code, bad lengths,
out-of-order content batch). -/
inductive ConnBehavior where
  | ok
  | connectionLost
  | protocolViolation
deriving DecidableEq, Repr

/-- A registered proxy connection, by identity, with what its
`receive_messages()` does this sweep. -/
structure AConn where
  id : Nat
  behavior : ConnBehavior
deriving DecidableEq, Repr

/-- One sweep of the `for con in self.__connections:` loop in
`handle_clients`.  `ConnectionError` is caught: the connection is
removed in place, which makes the list iterator skip the following
connection for this sweep (it stays registered).  Any other exception
— in particular the `ValueError` of a protocol violation — escapes to
the outer `except Exception`, which calls `os._exit(1)`. -/
def handle_clients_sweep : List AConn → Except String (List AConn)
  | [] => Except.ok []
  | [c] =>
    match c.behavior with
    | ConnBehavior.ok => Except.ok [c]
    | ConnBehavior.connectionLost => Except.ok []
    | ConnBehavior.protocolViolation => Except.error "os._exit(1)"
  | c :: d :: rest2 =>
    match c.behavior with
    | ConnBehavior.ok => (handle_clients_sweep (d :: rest2)).map (fun r => c :: r)
    | ConnBehavior.connectionLost => (handle_clients_sweep rest2).map (fun r => d :: r)
    | ConnBehavior.protocolViolation => Except.error "os._exit(1)"

lemma applyAdds_cum_hash (rs : List Record) :
    ∀ s : Snapshot, (applyAdds s rs).cum_hash =
      rs.foldl (fun h r => Snapshot.hash_fun (h ++ r.data)) s.cum_hash := by
  induction rs with
  | nil => intro s; rfl
  | cons r rs ih =>
    intro s
    simpa [applyAdds, Snapshot.add_record] using ih (s.add_record r)

lemma countAdds_add (r : Record) (ops : List SnapOp) :
    countAdds (SnapOp.add r :: ops) = countAdds ops + 1 := by
  simp [countAdds, List.countP_cons]

lemma countAdds_upload (ops : List SnapOp) :
    countAdds (SnapOp.upload :: ops) = countAdds ops := by
  simp [countAdds, List.countP_cons]

lemma runOps_line_count_zero (ops : List SnapOp) :
    ∀ s : Snapshot, (s.line_count = 0 → s.cum_hash = Snapshot.hash_fun "") →
      ((runOps s ops).1.line_count = 0 → (runOps s ops).1.cum_hash = Snapshot.hash_fun "") := by
  induction ops with
  | nil => intro s h; exact h
  | cons op ops ih =>
    intro s h
    cases op with
    | add r =>
      exact ih (s.add_record r) (fun hc => absurd hc (Nat.succ_ne_zero _))
    | upload =>
      exact ih s.reset (fun _ => rfl)

lemma runOps_cover (ops : List SnapOp) :
    ∀ s : Snapshot,
      (postedViews (runOps s ops).2).flatMap viewLines ++
        List.range' (runOps s ops).1.first_line (runOps s ops).1.line_count
      = List.range' s.first_line s.line_count ++
        List.range' s.get_next_line (countAdds ops) := by
  induction ops with
  | nil =>
    intro s
    simp [runOps, postedViews, countAdds]
  | cons op ops ih =>
    intro s
    cases op with
    | add r =>
      have h := ih (s.add_record r)
      simp only [runOps, countAdds_add]
      rw [h]
      simp only [Snapshot.add_record, Snapshot.get_next_line]
      rw [List.range'_1_concat, List.range'_succ]
      simp [List.append_assoc, Nat.add_assoc, Nat.add_comm 1 s.line_count,
        Nat.add_left_comm 1 s.line_count]
    | upload =>
      have h := ih s.reset
      simp only [runOps, countAdds_upload, Snapshot.upload_prep]
      by_cases hc : s.line_count = 0
      · have hfilter : postedViews (s.to_dict :: (runOps s.reset ops).2) =
            postedViews (runOps s.reset ops).2 := by
          simp only [postedViews, List.filter]
          have : ¬ ((s.to_dict.firstLine : Int) ≤ s.to_dict.lastLine) := by
            simp [Snapshot.to_dict, Snapshot.get_next_line, hc]
          simp [this]
        rw [hfilter, h]
        simp [Snapshot.reset, Snapshot.get_next_line, hc]
      · have hfilter : postedViews (s.to_dict :: (runOps s.reset ops).2) =
            s.to_dict :: postedViews (runOps s.reset ops).2 := by
          simp only [postedViews, List.filter]
          have : (s.to_dict.firstLine : Int) ≤ s.to_dict.lastLine := by
            simp only [Snapshot.to_dict, Snapshot.get_next_line]
            omega
          simp [this]
        have hlines : viewLines s.to_dict = List.range' s.first_line s.line_count := by
          simp only [viewLines, Snapshot.to_dict, Snapshot.get_next_line]
          congr 1
          omega
        rw [hfilter]
        simp only [List.flatMap_cons, List.append_assoc, hlines, h]
        simp [Snapshot.reset, Snapshot.get_next_line]

/-- C1: the snapshot fingerprint is the left fold `h₀ = H("")`,
`hᵢ = H(h₍ᵢ₋₁₎ ++ rᵢ.data)` of the added records; an empty snapshot's
hash is `H("")` (in any interleaving of adds and uploads, whenever
`line_count = 0`); and after `upload_prep` at any split point `k` the
continuation's hash is the same fold restarted from `H("")`. -/
theorem c1_fingerprint_linearity (log : Log) (fl : Nat) (rs : List Record) (k : Nat)
    (ops : List SnapOp) :
    (applyAdds (Snapshot.init log fl) rs).cum_hash = specFold rs ∧
    ((runOps (Snapshot.init log fl) ops).1.line_count = 0 →
      (runOps (Snapshot.init log fl) ops).1.cum_hash = Snapshot.hash_fun "") ∧
    (applyAdds ((applyAdds (Snapshot.init log fl) (rs.take k)).upload_prep.2)
        (rs.drop k)).cum_hash = specFold (rs.drop k) := by
  refine ⟨applyAdds_cum_hash rs _, runOps_line_count_zero ops _ (fun _ => rfl), ?_⟩
  exact applyAdds_cum_hash (rs.drop k) _

/-- Witness for C1 at a concrete input: one upload on a fresh snapshot
leaves an empty snapshot whose hash is `H("")`. -/
theorem c1_fingerprint_linearity_witness :
    (runOps (Snapshot.init ⟨"/t/a.log", none⟩ 0) [SnapOp.upload]).1.cum_hash =
      Snapshot.hash_fun "" :=
  (c1_fingerprint_linearity ⟨"/t/a.log", none⟩ 0 [] 0 [SnapOp.upload]).2.1 rfl

/-- C2: starting from `first_line = 0`, for any sequential interleaving
of `add_record` and `upload_prep` calls, the posted views
(`firstLine ≤ lastLine`) together with the final in-progress range
cover `[0, k)` exactly once, in order, with no gap and no overlap,
where `k` is the number of records added. -/
theorem c2_no_record_loss (log : Log) (ops : List SnapOp) :
    (postedViews (runOps (Snapshot.init log 0) ops).2).flatMap viewLines ++
      List.range' (runOps (Snapshot.init log 0) ops).1.first_line
        (runOps (Snapshot.init log 0) ops).1.line_count
    = List.range (countAdds ops) := by
  have h := runOps_cover ops (Snapshot.init log 0)
  rw [h]
  simp [Snapshot.init, Snapshot.get_next_line, List.range_eq_range']

lemma find_snapshot_upload (name : String) (l : List (String × Snapshot)) :
    (ListLogCollector.find_snapshot ⟨l.map (fun p => (p.1, p.2.reset))⟩ name) =
      (ListLogCollector.find_snapshot ⟨l⟩ name).map Snapshot.reset := by
  induction l with
  | nil => rfl
  | cons p l ih =>
    by_cases h : p.1 == name
    · simp [ListLogCollector.find_snapshot, List.find?, h]
    · simpa [ListLogCollector.find_snapshot, List.find?, h] using ih

/-- C10: `get_next_line` is unchanged by `upload_prep` (and by
`reset`): the reset rebases `first_line` to the old `next_line` with
`line_count = 0`.  Consequently the position the agent reports via
`get_log_position` is never changed by `upload_records`. -/
theorem c10_position_stable_across_upload (s : Snapshot) (c : ListLogCollector) (log : Log) :
    s.upload_prep.2.get_next_line = s.get_next_line ∧
    s.reset.get_next_line = s.get_next_line ∧
    (c.upload_records.1.get_log_position log = c.get_log_position log) := by
  refine ⟨Nat.add_zero _, Nat.add_zero _, ?_⟩
  unfold ListLogCollector.get_log_position ListLogCollector.upload_records
  simp only
  rw [find_snapshot_upload log.log_name c.snapshots]
  have : c.find_snapshot log.log_name = ListLogCollector.find_snapshot ⟨c.snapshots⟩ log.log_name := rfl
  rw [this]
  cases ListLogCollector.find_snapshot ⟨c.snapshots⟩ log.log_name with
  | none => rfl
  | some s => exact Nat.add_zero _

lemma foldl_add_record (records : List String) :
    ∀ r : ContentRequest, records.foldl ContentRequest.add_record r =
      { r with content := r.content ++ records,
               next_record_ind := r.next_record_ind + records.length } := by
  induction records with
  | nil => intro r; simp
  | cons x xs ih =>
    intro r
    simp only [List.foldl_cons]
    rw [ih]
    simp [ContentRequest.add_record, Nat.add_comm, Nat.add_assoc, Nat.add_left_comm]

/-- C6: on a live content request, `add_records` raises exactly when
all requested records are already received or the batch's
`begin_record` is not the request's `next_record_ind`; otherwise it
appends the records to the queue and advances `next_record_ind` by
their count (so every accepted batch starts at the previous end + 1). -/
theorem c6_content_request_ordering (h : Handler) (request_id begin_record : Nat)
    (records : List String) (cell : ReqCell)
    (hc : h[request_id]? = some cell) (hm : cell.inMap = true) :
    ((∃ msg, ContentRequestHandler.add_records h request_id begin_record records =
        Except.error msg) ↔
      (cell.req.got_all_requested_records = true ∨
        begin_record ≠ cell.req.next_record_ind)) ∧
    (cell.req.got_all_requested_records = false →
      begin_record = cell.req.next_record_ind →
      ContentRequestHandler.add_records h request_id begin_record records =
        Except.ok (h.set request_id
          ⟨{ cell.req with content := cell.req.content ++ records,
                           next_record_ind := cell.req.next_record_ind + records.length },
            true⟩)) := by
  unfold ContentRequestHandler.add_records
  rw [hc]
  simp only [hm, Bool.not_true, Bool.false_eq_true, if_false]
  by_cases hga : cell.req.got_all_requested_records
  · simp [hga]
  · by_cases hbe : cell.req.next_record_ind = begin_record
    · simp [hga, hbe, foldl_add_record]
    · simp [hga, hbe, Ne.symm hbe]

/-- Witness for C6 on a one-request handler: an in-order batch of two
records is accepted and advances `next_record_ind` from 3 to 5. -/
theorem c6_content_request_ordering_witness :
    ContentRequestHandler.add_records
        [⟨ContentRequest.init 0 ⟨"/t/a.log", none⟩ 3 10, true⟩] 0 3 ["a", "b"] =
      Except.ok ([⟨ContentRequest.init 0 ⟨"/t/a.log", none⟩ 3 10, true⟩].set 0
        ⟨{ (ContentRequest.init 0 ⟨"/t/a.log", none⟩ 3 10) with
             content := (ContentRequest.init 0 ⟨"/t/a.log", none⟩ 3 10).content ++ ["a", "b"],
             next_record_ind :=
               (ContentRequest.init 0 ⟨"/t/a.log", none⟩ 3 10).next_record_ind + 2 },
          true⟩) :=
  (c6_content_request_ordering _ 0 3 ["a", "b"] _ rfl rfl).2 (by decide) (by decide)

lemma drop_of_unmapped (h : Handler) (request_id : Nat) (cell : ReqCell)
    (hc : h[request_id]? = some cell) (hm : cell.inMap = false) :
    ContentRequestHandler.drop_content_request h request_id = h := by
  unfold ContentRequestHandler.drop_content_request ContentRequestHandler.set_status
  rw [hc]
  simp [hm]

lemma drop_result (h : Handler) (request_id : Nat) (cell : ReqCell)
    (hc : h[request_id]? = some cell) :
    ∃ cell', (ContentRequestHandler.drop_content_request h request_id)[request_id]? = some cell' ∧
      cell'.inMap = false ∧
      (cell.inMap = true → cell' = ⟨cell.req.set_status ContentRequest.Status.DROPPED, false⟩) ∧
      (cell.inMap = false → cell' = cell) := by
  have hlt : request_id < h.length := (List.getElem?_eq_some.mp hc).1
  unfold ContentRequestHandler.drop_content_request ContentRequestHandler.set_status
  rw [hc]
  by_cases hin : cell.inMap
  · refine ⟨⟨cell.req.set_status ContentRequest.Status.DROPPED, false⟩, ?_, rfl, fun _ => rfl,
      fun hf => absurd hin (by simp [hf])⟩
    simp only [hin, if_true, terminalStatus]
    exact List.getElem?_set_self hlt
  · simp only [hin, if_false]
    exact ⟨cell, hc, by simpa using hin, fun ht => absurd ht (by simpa using hin), fun _ => rfl⟩

lemma step_frozen (h : Handler) (e : HEvent) (request_id : Nat) (cell : ReqCell)
    (hc : h[request_id]? = some cell) (hm : cell.inMap = false) :
    (stepHandler h e)[request_id]? = some cell := by
  cases e with
  | create log b e' =>
    have hlt : request_id < h.length := (List.getElem?_eq_some.mp hc).1
    simp only [stepHandler, ContentRequestHandler.create_request]
    rw [List.getElem?_append_left hlt]
    exact hc
  | wireStatus i st =>
    simp only [stepHandler, ContentRequestHandler.set_status]
    cases hlook : h[i]? with
    | none => exact hc
    | some c =>
      by_cases hin : c.inMap
      · simp only [hin, if_true]
        by_cases hij : i = request_id
        · subst hij
          rw [hlook] at hc
          cases hc
          rw [hin] at hm
          cases hm
        · rw [List.getElem?_set_ne hij]
          exact hc
      · simp only [hin, if_false]
        exact hc
  | wireData i b rs =>
    by_cases hij : i = request_id
    · subst hij
      simp only [stepHandler, ContentRequestHandler.add_records, hc, hm]
      exact hc
    · simp only [stepHandler, ContentRequestHandler.add_records]
      cases hlook : h[i]? with
      | none => exact hc
      | some c =>
        by_cases hin : c.inMap
        · by_cases hga : c.req.got_all_requested_records
          · simp only [hin, hga, Bool.not_true, Bool.false_eq_true, if_false, if_true]
            exact hc
          · by_cases hbe : c.req.next_record_ind = b
            · simp only [hin, hga, hbe, Bool.not_true, Bool.false_eq_true, if_false, bne_self_eq_false]
              rw [List.getElem?_set_ne hij]
              exact hc
            · simp only [hin, hga, Bool.not_true, Bool.false_eq_true, if_false,
                bne_iff_ne, ne_eq, hbe, not_false_eq_true, if_true]
              exact hc
        · simp only [hin, Bool.not_false, if_true]
          exact hc

lemma run_frozen (evs : List HEvent) : ∀ (h : Handler) (request_id : Nat) (cell : ReqCell),
    h[request_id]? = some cell → cell.inMap = false →
    (runHandler h evs)[request_id]? = some cell := by
  induction evs with
  | nil => intro h i cell hc _; exact hc
  | cons e evs ih =>
    intro h i cell hc hm
    exact ih (stepHandler h e) i cell (step_frozen h e i cell hc hm) hm

/-- C9: dropping a content request leaves it terminal (status `DROPPED`
when it was still live, its previous terminal status otherwise) and
removes it from the handler map; dropping is idempotent; and after the
drop every wire event carrying its request id — any further
`set_status` or `add_records`, after any interleaving of other handler
events — is silently ignored: it changes no state and raises no error. -/
theorem c9_idempotent_drop (h : Handler) (request_id : Nat) (cell : ReqCell)
    (hc : h[request_id]? = some cell)
    (hinv : ∀ c ∈ h, c.inMap = false → terminalStatus c.req.status = true) :
    (∀ cell', (ContentRequestHandler.drop_content_request h request_id)[request_id]? = some cell' →
      terminalStatus cell'.req.status = true ∧ cell'.inMap = false) ∧
    (cell.inMap = true →
      (ContentRequestHandler.drop_content_request h request_id)[request_id]? =
        some ⟨cell.req.set_status ContentRequest.Status.DROPPED, false⟩) ∧
    (ContentRequestHandler.drop_content_request
        (ContentRequestHandler.drop_content_request h request_id) request_id =
      ContentRequestHandler.drop_content_request h request_id) ∧
    (∀ (evs : List HEvent) (st : ContentRequest.Status) (begin_record : Nat)
        (records : List String),
      ContentRequestHandler.set_status
          (runHandler (ContentRequestHandler.drop_content_request h request_id) evs)
          request_id st =
        runHandler (ContentRequestHandler.drop_content_request h request_id) evs ∧
      ContentRequestHandler.add_records
          (runHandler (ContentRequestHandler.drop_content_request h request_id) evs)
          request_id begin_record records =
        Except.ok (runHandler (ContentRequestHandler.drop_content_request h request_id) evs)) := by
  obtain ⟨cell', hc', hm', hlive, hdead⟩ := drop_result h request_id cell hc
  refine ⟨?_, ?_, ?_, ?_⟩
  · intro c' hc''
    rw [hc'] at hc''
    cases hc''
    refine ⟨?_, hm'⟩
    by_cases hin : cell.inMap
    · rw [hlive hin]
      rfl
    · rw [hdead (by simpa using hin)]
      exact hinv cell (List.getElem?_mem hc) (by simpa using hin)
  · intro hin
    rw [hc', hlive hin]
  · exact drop_of_unmapped _ request_id cell' hc' hm'
  · intro evs st begin_record records
    have hrun := run_frozen evs _ request_id cell' hc' hm'
    constructor
    · unfold ContentRequestHandler.set_status
      rw [hrun]
      simp [hm']
    · unfold ContentRequestHandler.add_records
      rw [hrun]
      simp [hm']

/-- Witness for C9: on a one-request handler holding a pending live
request, dropping twice equals dropping once. -/
theorem c9_idempotent_drop_witness :
    ContentRequestHandler.drop_content_request
        (ContentRequestHandler.drop_content_request
          [⟨ContentRequest.init 0 ⟨"/t/a.log", none⟩ 0 4, true⟩] 0) 0 =
      ContentRequestHandler.drop_content_request
        [⟨ContentRequest.init 0 ⟨"/t/a.log", none⟩ 0 4, true⟩] 0 :=
  (c9_idempotent_drop [⟨ContentRequest.init 0 ⟨"/t/a.log", none⟩ 0 4, true⟩] 0 _ rfl
    (by decide)).2.2.1

lemma set_status_getElem (cells : Handler) (i j : Nat) (st : ContentRequest.Status) :
    (ContentRequestHandler.set_status cells i st)[j]? =
      if i = j then
        Option.map (fun c : ReqCell =>
          if c.inMap then ⟨c.req.set_status st, !terminalStatus st⟩ else c) cells[j]?
      else cells[j]? := by
  unfold ContentRequestHandler.set_status
  by_cases hij : i = j
  · subst hij
    cases hlook : cells[i]? with
    | none => simp [hlook]
    | some c =>
      have hlt : i < cells.length := (List.getElem?_eq_some.mp hlook).1
      by_cases hin : c.inMap
      · simp [hlook, hin, List.getElem?_set_self hlt]
      · simp [hlook, hin]
  · cases hlook : cells[i]? with
    | none => simp [hlook, hij]
    | some c =>
      by_cases hin : c.inMap
      · simp [hlook, hin, List.getElem?_set_ne hij, hij]
      · simp [hlook, hin, hij]

lemma dropT_dropT (c : ReqCell) : dropT (dropT c) = dropT c := by
  by_cases hin : c.inMap <;> simp [dropT, hin]

lemma map_dropT_idem (x : Option ReqCell) :
    Option.map dropT (Option.map dropT x) = Option.map dropT x := by
  cases x with
  | none => rfl
  | some c => simp [dropT_dropT]

lemma dropT_comp : dropT ∘ dropT = dropT :=
  funext dropT_dropT

lemma drop_getElem (cells : Handler) (i j : Nat) :
    (ContentRequestHandler.drop_content_request cells i)[j]? =
      if i = j then Option.map dropT cells[j]? else cells[j]? := by
  unfold ContentRequestHandler.drop_content_request
  rw [set_status_getElem]
  have hfun : (fun c : ReqCell =>
      if c.inMap then
        (⟨c.req.set_status ContentRequest.Status.DROPPED,
          !terminalStatus ContentRequest.Status.DROPPED⟩ : ReqCell)
      else c) = dropT := by
    funext c
    simp [dropT, terminalStatus]
  rw [hfun]

lemma dropOthers_cons (cells : Handler) (l o : Nat) (os : List Nat) :
    AgentContentRequest.dropOthers cells l (o :: os) =
      AgentContentRequest.dropOthers
        (if o = l then cells else ContentRequestHandler.drop_content_request cells o) l os := by
  simp only [AgentContentRequest.dropOthers, List.foldl_cons]

lemma dropOthers_getElem (l j : Nat) (others : List Nat) :
    ∀ cells : Handler, (AgentContentRequest.dropOthers cells l others)[j]? =
      if j ∈ others ∧ j ≠ l then Option.map dropT cells[j]? else cells[j]? := by
  induction others with
  | nil =>
    intro cells
    simp [AgentContentRequest.dropOthers]
  | cons o os ih =>
    intro cells
    rw [dropOthers_cons, ih]
    by_cases hol : o = l
    · subst hol
      simp only [if_pos rfl]
      by_cases hjo : j = o
      · simp [hjo]
      · by_cases hjos : j ∈ os <;> simp [List.mem_cons, hjo, hjos]
    · simp only [if_neg hol]
      rw [drop_getElem]
      by_cases hjo : j = o
      · subst hjo
        have hjl : j ≠ l := hol
        simp only [if_pos rfl]
        by_cases hjos : j ∈ os <;>
          simp [hjos, hjl, map_dropT_idem, dropT_comp, List.mem_cons]
      · have hoj : ¬ o = j := fun h => hjo h.symm
        simp only [if_neg hoj]
        by_cases hjos : j ∈ os <;> simp [hjos, List.mem_cons, hjo]

lemma scanRev_fst (cells : Handler) (L : List Nat) :
    (AgentContentRequest.scanRev cells L).1 = L.find? (isCandidate cells) := by
  induction L with
  | nil => simp [AgentContentRequest.scanRev]
  | cons i rest ih =>
    cases hst : AgentContentRequest.statusOf cells i <;>
      simp [AgentContentRequest.scanRev, hst, List.find?_cons, isCandidate, ih]

lemma scanRev_none_filter (cells : Handler) (L : List Nat) :
    (AgentContentRequest.scanRev cells L).1 = none →
    (AgentContentRequest.scanRev cells L).2 =
      L.filter (fun i => AgentContentRequest.statusOf cells i == ContentRequest.Status.PENDING) := by
  induction L with
  | nil => intro _; simp [AgentContentRequest.scanRev]
  | cons i rest ih =>
    intro hnone
    cases hst : AgentContentRequest.statusOf cells i <;>
      rw [AgentContentRequest.scanRev, hst] at hnone ⊢ <;>
      simp_all [List.filter_cons, hst]

lemma scanRev_mem_or (cells : Handler) (L : List Nat) (j : Nat) :
    j ∈ L → (j ∈ (AgentContentRequest.scanRev cells L).2 ∨
      (AgentContentRequest.statusOf cells j = ContentRequest.Status.NOT_FOUND ∨
       AgentContentRequest.statusOf cells j = ContentRequest.Status.DROPPED)) := by
  induction L with
  | nil => intro h; cases h
  | cons i rest ih =>
    intro hmem
    rcases List.mem_cons.mp hmem with hji | hjr
    · subst hji
      cases hst : AgentContentRequest.statusOf cells j <;>
        simp [AgentContentRequest.scanRev, hst]
    · cases hst : AgentContentRequest.statusOf cells i <;>
        simp only [AgentContentRequest.scanRev, hst] <;>
        first
        | (exact Or.inl (List.mem_cons_of_mem _ hjr))
        | (exact ih hjr)
        | (rcases ih hjr with h | h
           · exact Or.inl (List.mem_cons_of_mem _ h)
           · exact Or.inr h)

lemma stepAgg_lead_stable (s : AgentContentRequest) (e : AggEvent) (l : Nat)
    (h : s.lead = some l) : (stepAgg s e).lead = some l := by
  cases e with
  | wireStatus c ws => simpa [stepAgg] using h
  | wireData c b rs =>
    cases hres : ContentRequestHandler.add_records s.cells c b rs <;>
      simpa [stepAgg, hres] using h
  | getLead => simp [stepAgg, AgentContentRequest.get_lead, h]

lemma stepAgg_sent (s : AgentContentRequest) (e : AggEvent) :
    (stepAgg s e).sent = s.sent := by
  cases e with
  | wireStatus c ws => rfl
  | wireData c b rs =>
    cases hres : ContentRequestHandler.add_records s.cells c b rs <;> simp [stepAgg, hres]
  | getLead =>
    simp only [stepAgg, AgentContentRequest.get_lead]
    by_cases hl : s.lead.isSome
    · simp [hl]
    · simp only [hl, if_false]
      cases hscan : (AgentContentRequest.scanRev s.cells s.active.reverse).1 <;>
        simp [AgentContentRequest.try_resolve_lead, hscan]

lemma runAgg_lead_stable (evs : List AggEvent) :
    ∀ (s : AgentContentRequest) (l : Nat), s.lead = some l →
      (runAgg s evs).lead = some l := by
  induction evs with
  | nil => intro s l h; exact h
  | cons e evs ih =>
    intro s l h
    exact ih (stepAgg s e) l (stepAgg_lead_stable s e l h)

lemma runAgg_sent (evs : List AggEvent) :
    ∀ s : AgentContentRequest, (runAgg s evs).sent = s.sent := by
  induction evs with
  | nil => intro s; rfl
  | cons e evs ih =>
    intro s
    rw [show runAgg s (e :: evs) = runAgg (stepAgg s e) evs from rfl, ih, stepAgg_sent]

/-- C3 (amended): at most one child is ever elected lead — once `lead`
is set, no later event changes it — and the elected child is the first
with status `RECEIVING` or `CLOSED` scanning newest to oldest; upon
election the aggregate's list is cleared and every other child is
dropped agent-locally (set to `DROPPED` if still in its handler's map,
left in its terminal state otherwise) — no cancellation wire message
exists or is sent; when no candidate exists, `get_lead` prunes the
`NOT_FOUND`/`DROPPED` children and keeps the `PENDING` ones; the
aggregate is dead iff no children remain and no lead was elected; and
no aggregate event ever sends a wire message. -/
theorem c3_lead_uniqueness (s : AgentContentRequest) (l j : Nat) (cell : ReqCell)
    (evs : List AggEvent) :
    (s.lead = some l → (runAgg s evs).lead = some l) ∧
    (s.lead = none →
      (stepAgg s AggEvent.getLead).lead = s.active.reverse.find? (isCandidate s.cells)) ∧
    (aggInv s → s.lead = none → (stepAgg s AggEvent.getLead).lead = some l →
      (stepAgg s AggEvent.getLead).active = [] ∧
      (j ∈ s.active → j ≠ l → s.cells[j]? = some cell →
        (stepAgg s AggEvent.getLead).cells[j]? =
          some (if cell.inMap then ⟨cell.req.set_status ContentRequest.Status.DROPPED, false⟩
                else cell))) ∧
    (s.lead = none → (∀ i ∈ s.active, isCandidate s.cells i = false) →
      (stepAgg s AggEvent.getLead).lead = none ∧
      (stepAgg s AggEvent.getLead).active =
        s.active.filter
          (fun i => AgentContentRequest.statusOf s.cells i == ContentRequest.Status.PENDING)) ∧
    (AgentContentRequest.is_dead s = true ↔ (s.lead = none ∧ s.active = [])) ∧
    (runAgg s evs).sent = s.sent := by
  have hstep : ∀ hn : s.lead = none,
      stepAgg s AggEvent.getLead = AgentContentRequest.try_resolve_lead s := by
    intro hn
    simp [stepAgg, AgentContentRequest.get_lead, hn]
  refine ⟨fun h => runAgg_lead_stable evs s l h, ?_, ?_, ?_, ?_, runAgg_sent evs s⟩
  · intro hn
    rw [hstep hn]
    unfold AgentContentRequest.try_resolve_lead
    rw [← scanRev_fst]
    cases hscan : (AgentContentRequest.scanRev s.cells s.active.reverse).1 <;> simp [hscan, hn]
  · intro hinv hn hl
    rw [hstep hn] at hl ⊢
    simp only [AgentContentRequest.try_resolve_lead] at hl ⊢
    cases hscan : (AgentContentRequest.scanRev s.cells s.active.reverse).1 with
    | none =>
      simp only [hscan] at hl
      simp [hn] at hl
    | some l' =>
      simp only [hscan] at hl ⊢
      have hl' : l' = l := by simpa using hl
      subst hl'
      refine ⟨trivial, ?_⟩
      intro hjmem hjl hcell
      rw [dropOthers_getElem, hcell]
      rcases scanRev_mem_or s.cells s.active.reverse j (List.mem_reverse.mpr hjmem) with
        hins | hterm
      · simp only [hins, hjl, ne_eq, not_false_eq_true, and_self, if_true, Option.map_some]
        rfl
      · have hnm : cell.inMap = false := by
          apply hinv cell (List.getElem?_mem hcell)
          have hstat : AgentContentRequest.statusOf s.cells j = cell.req.status := by
            simp [AgentContentRequest.statusOf, hcell]
          rw [hstat] at hterm
          exact hterm
        by_cases hins : j ∈ (AgentContentRequest.scanRev s.cells s.active.reverse).2 <;>
          simp [hins, hjl, dropT, hnm]
  · intro hn hnc
    rw [hstep hn]
    have hfind : (AgentContentRequest.scanRev s.cells s.active.reverse).1 = none := by
      rw [scanRev_fst]
      exact List.find?_eq_none.mpr (fun x hx => by
        simp [hnc x (List.mem_reverse.mp hx)])
    simp only [AgentContentRequest.try_resolve_lead, hfind]
    exact ⟨hn, by
      rw [scanRev_none_filter s.cells _ hfind, List.filter_reverse, List.reverse_reverse]⟩
  · simp [AgentContentRequest.is_dead, Option.isNone_iff_eq_none, List.isEmpty_iff]

/-- Counterexample to C3 as stated: a concrete two-proxy fan-out in
which child 1 reports `FOUND` and the next `get_lead` elects it — the
other child is transitioned to `DROPPED`, yet the log of sent wire
messages is exactly what the fan-out itself sent: no cancellation
message goes to the other proxy (none exists in the protocol). -/
theorem c3_no_cancellation_message_sent :
    (runAgg (AgentContentRequest.request_log_content 2 ⟨"/t/a.log", none⟩ 0 4)
        [AggEvent.wireStatus 1 WStatus.found, AggEvent.getLead]).lead = some 1 ∧
    AgentContentRequest.statusOf
        (runAgg (AgentContentRequest.request_log_content 2 ⟨"/t/a.log", none⟩ 0 4)
          [AggEvent.wireStatus 1 WStatus.found, AggEvent.getLead]).cells 0 =
      ContentRequest.Status.DROPPED ∧
    (runAgg (AgentContentRequest.request_log_content 2 ⟨"/t/a.log", none⟩ 0 4)
        [AggEvent.wireStatus 1 WStatus.found, AggEvent.getLead]).sent =
      (AgentContentRequest.request_log_content 2 ⟨"/t/a.log", none⟩ 0 4).sent := by
  decide

/-- Witness for C3 at a concrete aggregate: after child 1 reports
`FOUND`, `get_lead` elects the newest candidate. -/
theorem c3_lead_uniqueness_witness :
    (stepAgg
        (stepAgg (AgentContentRequest.request_log_content 2 ⟨"/t/a.log", none⟩ 0 4)
          (AggEvent.wireStatus 1 WStatus.found))
        AggEvent.getLead).lead =
      (stepAgg (AgentContentRequest.request_log_content 2 ⟨"/t/a.log", none⟩ 0 4)
          (AggEvent.wireStatus 1 WStatus.found)).active.reverse.find?
        (isCandidate
          (stepAgg (AgentContentRequest.request_log_content 2 ⟨"/t/a.log", none⟩ 0 4)
            (AggEvent.wireStatus 1 WStatus.found)).cells) :=
  (c3_lead_uniqueness _ 0 0 ⟨ContentRequest.init 0 ⟨"/t/a.log", none⟩ 0 4, true⟩ []).2.1
    (by decide)

/-- C4 (amended): for a job whose snapshots are not yet exhausted and
whose validation has not finished, one worker pass behaves as follows
when the record stream has terminated: if the aggregate is dead (every
proxy answered `NOT_FOUND` or disconnected), the job is dropped after
posting `isCorrect = false`; but if the stream terminated because the
lead closed (status `CLOSED`, queue drained), the job is dropped
without posting anything. -/
theorem c4_stream_end_failure (j : LogValidatorJob) (l : Nat) (cell : ReqCell)
    (hnf : j.validation_finished = false) (hne : j.remaining_snapshots ≠ []) :
    (AgentContentRequest.is_dead j.job = true →
      worker_tick [j] = Except.ok ([], [(j.log.log_id, false)])) ∧
    (j.job.lead = some l → j.job.cells[l]? = some cell →
      cell.req.status = ContentRequest.Status.CLOSED → cell.req.content = [] →
      worker_tick [j] = Except.ok ([], [])) := by
  have hempty : j.remaining_snapshots.isEmpty = false := by
    simpa [List.isEmpty_iff] using hne
  constructor
  · intro hdead
    have hlead : j.job.lead = none := by
      have := hdead
      simp [AgentContentRequest.is_dead, Option.isNone_iff_eq_none] at this
      exact this.1
    have hact : j.job.active = [] := by
      have := hdead
      simp [AgentContentRequest.is_dead, List.isEmpty_iff] at this
      exact this.2
    have hs' : AgentContentRequest.mk j.job.cells [] none j.job.sent = j.job := by
      rw [← hact, ← hlead]
    have hgl : AgentContentRequest.get_lead j.job = (j.job, none) := by
      simp only [AgentContentRequest.get_lead, hlead, Option.isSome_none,
        Bool.false_eq_true, if_false, AgentContentRequest.try_resolve_lead, hact,
        List.reverse_nil, AgentContentRequest.scanRev]
      rw [hs']
    have hdw : j.do_work = Except.ok ({ j with job := j.job }, []) := by
      simp [LogValidatorJob.do_work, hgl]
    have hjj : ({ j with job := j.job } : LogValidatorJob) = j := rfl
    rw [hjj] at hdw
    have hwip : j.work_in_progress =
        (({ j with validation_finished := true },
          [(j.log.log_id, j.remaining_snapshots.isEmpty && (j.fingerprint == ""))]), false) := by
      simp [LogValidatorJob.work_in_progress, hdead, LogValidatorJob.finish_validation, hnf]
    simp [worker_tick, hdw, hwip, hempty, Bind.bind, Except.bind]
  · intro hlead hcell hst hq
    have hlt : l < j.job.cells.length := (List.getElem?_eq_some.mp hcell).1
    have hgl : AgentContentRequest.get_lead j.job = (j.job, some l) := by
      simp [AgentContentRequest.get_lead, hlead]
    have hdw : j.do_work = Except.ok
        ({ j with job := { j.job with
            cells := j.job.cells.set l ⟨{ cell.req with content := [] }, cell.inMap⟩ } }, []) := by
      rw [LogValidatorJob.do_work, hgl]
      simp only [hcell, hq, drainQueue, setCellQueue, LogValidatorJob.handle_all]
    have hwip : ({ j with job := { j.job with
        cells := j.job.cells.set l ⟨{ cell.req with content := [] }, cell.inMap⟩ } } :
          LogValidatorJob).work_in_progress =
        (({ j with job := { j.job with
            cells := j.job.cells.set l ⟨{ cell.req with content := [] }, cell.inMap⟩ } }, []),
          false) := by
      rw [LogValidatorJob.work_in_progress]
      have hdead2 : AgentContentRequest.is_dead { j.job with
          cells := j.job.cells.set l ⟨{ cell.req with content := [] }, cell.inMap⟩ } = false := by
        simp [AgentContentRequest.is_dead, hlead]
      have hgl2 : AgentContentRequest.get_lead { j.job with
          cells := j.job.cells.set l ⟨{ cell.req with content := [] }, cell.inMap⟩ } =
          ({ j.job with
            cells := j.job.cells.set l ⟨{ cell.req with content := [] }, cell.inMap⟩ }, some l) := by
        simp [AgentContentRequest.get_lead, hlead]
      rw [hdead2]
      simp only [Bool.false_eq_true, if_false, hgl2]
      have hstat : AgentContentRequest.statusOf
          (j.job.cells.set l ⟨{ cell.req with content := [] }, cell.inMap⟩) l =
          ContentRequest.Status.CLOSED := by
        simp [AgentContentRequest.statusOf, List.getElem?_set_self hlt, hst]
      simp [hstat]
    simp [worker_tick, hdw, hwip, Bind.bind, Except.bind]

/-- Counterexample to C4 as stated: one proxy is fanned out to, finds
the log, and closes the stream with no data (short file); the job holds
one unconsumed snapshot, yet the next worker pass drops the job
producing no backend post at all — no `isCorrect = false` is reported. -/
theorem c4_closed_stream_posts_nothing :
    (LogValidatorJob.init [⟨0, 4, "f1"⟩]
        (runAgg (AgentContentRequest.request_log_content 1 ⟨"/t/a.log", none⟩ 0 4)
          [AggEvent.wireStatus 0 WStatus.found, AggEvent.wireStatus 0 WStatus.endSend,
           AggEvent.getLead])
        ⟨"/t/a.log", some "L1"⟩).1.remaining_snapshots ≠ [] ∧
    (LogValidatorJob.init [⟨0, 4, "f1"⟩]
        (runAgg (AgentContentRequest.request_log_content 1 ⟨"/t/a.log", none⟩ 0 4)
          [AggEvent.wireStatus 0 WStatus.found, AggEvent.wireStatus 0 WStatus.endSend,
           AggEvent.getLead])
        ⟨"/t/a.log", some "L1"⟩).1.validation_finished = false ∧
    worker_tick [(LogValidatorJob.init [⟨0, 4, "f1"⟩]
        (runAgg (AgentContentRequest.request_log_content 1 ⟨"/t/a.log", none⟩ 0 4)
          [AggEvent.wireStatus 0 WStatus.found, AggEvent.wireStatus 0 WStatus.endSend,
           AggEvent.getLead])
        ⟨"/t/a.log", some "L1"⟩).1] = Except.ok ([], []) := by
  refine ⟨by decide, by decide, ?_⟩
  have := (c4_stream_end_failure
    (LogValidatorJob.init [⟨0, 4, "f1"⟩]
        (runAgg (AgentContentRequest.request_log_content 1 ⟨"/t/a.log", none⟩ 0 4)
          [AggEvent.wireStatus 0 WStatus.found, AggEvent.wireStatus 0 WStatus.endSend,
           AggEvent.getLead])
        ⟨"/t/a.log", some "L1"⟩).1 0
    ⟨⟨0, ⟨"/t/a.log", none⟩, 0, 0, 4, ContentRequest.Status.CLOSED, []⟩, false⟩
    (by decide) (by decide)).2
  exact this (by decide) (by decide) (by decide) (by decide)

/-- Witness for C4 at a concrete dead aggregate: every proxy answered
`NOT_FOUND`, so the pass posts `isCorrect = false` for the job's log. -/
theorem c4_stream_end_failure_witness :
    worker_tick [(LogValidatorJob.init [⟨0, 4, "f1"⟩]
        (runAgg (AgentContentRequest.request_log_content 1 ⟨"/t/a.log", none⟩ 0 4)
          [AggEvent.wireStatus 0 WStatus.notFound, AggEvent.getLead])
        ⟨"/t/a.log", some "L1"⟩).1] =
      Except.ok ([], [(some "L1", false)]) :=
  (c4_stream_end_failure _ 0
      ⟨⟨0, ⟨"/t/a.log", none⟩, 0, 0, 4, ContentRequest.Status.CLOSED, []⟩, false⟩
      (by decide) (by decide)).1 (by decide)

lemma serveLoop_batches (rid : Nat) :
    ∀ (n : Nat) (stream : List String) (record end_record : Nat),
      end_record + 1 - record ≤ n →
      goodBatches rid record (serveLoop stream rid record end_record) = true := by
  intro n
  induction n with
  | zero =>
    intro stream record end_record hle
    rw [serveLoop]
    have hgt : ¬ record ≤ end_record := by omega
    simp [hgt, goodBatches]
  | succ n ih =>
    intro stream record end_record hle
    rw [serveLoop]
    by_cases h : record ≤ end_record
    · simp only [h, dif_pos]
      by_cases hc : (stream.take (min (end_record - record + 1) BATCH_SIZE)).length = 0
      · simp [hc, goodBatches]
      · simp only [hc, dif_neg, not_false_eq_true]
        have hpos : 0 < (stream.take (min (end_record - record + 1) BATCH_SIZE)).length :=
          Nat.pos_of_ne_zero hc
        have hb : (stream.take (min (end_record - record + 1) BATCH_SIZE)).length ≤ BATCH_SIZE := by
          rw [List.length_take]
          omega
        simp only [goodBatches, Bool.and_eq_true, beq_iff_eq, decide_eq_true_eq,
          List.length_map]
        refine ⟨⟨⟨⟨⟨trivial, trivial⟩, hpos⟩, hb⟩, by omega⟩, ?_⟩
        exact ih (stream.drop (min (end_record - record + 1) BATCH_SIZE)) _ end_record
          (by omega)
    · simp [h, goodBatches]

/-- C5 (amended): with no watch for the log, exactly one
`LogContentStatus{NOT_FOUND}` is sent and nothing else; with a watch
and a file holding at least `begin` lines, the exchange is
`LogContentStatus{FOUND}`, then contiguous in-order `LogContentData`
batches of 1..20 records starting at `begin`, then always
`LogContentStatus{END}` (short reads included); but when the file holds
fewer than `begin` lines, the line-skip in `LogStream.__init__` raises
`StopIteration` and the exchange ends after `FOUND` with neither data
nor `END`. -/
theorem c5_content_server (has_watch : Bool) (file : List String)
    (request_id begin_record end_record : Nat) (hbe : begin_record ≤ end_record) :
    (has_watch = false →
      handle_log_content_request has_watch file request_id begin_record end_record =
        ([ProxyMsg.status request_id WStatus.notFound], true)) ∧
    (has_watch = true → begin_record ≤ file.length →
      ∃ batches,
        handle_log_content_request has_watch file request_id begin_record end_record =
          (ProxyMsg.status request_id WStatus.found ::
            (batches ++ [ProxyMsg.status request_id WStatus.endSend]), true) ∧
        goodBatches request_id begin_record batches = true) ∧
    (has_watch = true → file.length < begin_record →
      handle_log_content_request has_watch file request_id begin_record end_record =
        ([ProxyMsg.status request_id WStatus.found], false)) := by
  refine ⟨?_, ?_, ?_⟩
  · intro hw
    simp [handle_log_content_request, hw]
  · intro hw hfits
    refine ⟨serveLoop (file.drop begin_record) request_id begin_record end_record, ?_, ?_⟩
    · simp [handle_log_content_request, hw, logStreamInit, hfits]
    · exact serveLoop_batches request_id (end_record + 1 - begin_record) _ _ _ (Nat.le_refl _)
  · intro hw hshort
    have hns : ¬ begin_record ≤ file.length := by omega
    simp [handle_log_content_request, hw, logStreamInit, hns]

/-- Counterexample to C5 as stated: the log is watched but the file is
empty while `begin = 1`: after `LogContentStatus{FOUND}` the skip
raises `StopIteration`, so no `LogContentStatus{END}` is ever sent. -/
theorem c5_short_file_sends_no_end :
    handle_log_content_request true [] 7 1 2 =
      ([ProxyMsg.status 7 WStatus.found], false) := by
  rfl

/-- Witness for C5: a two-line file served from line 0 to 1. -/
theorem c5_content_server_witness :
    ∃ batches,
      handle_log_content_request true ["x\n", "y\n"] 5 0 1 =
        (ProxyMsg.status 5 WStatus.found ::
          (batches ++ [ProxyMsg.status 5 WStatus.endSend]), true) ∧
      goodBatches 5 0 batches = true :=
  (c5_content_server true ["x\n", "y\n"] 5 0 1 (by decide)).2.1 rfl (by decide)

lemma sweep_ok_front (pre : List AConn) :
    ∀ rest : List AConn, (∀ d ∈ pre, d.behavior = ConnBehavior.ok) →
      handle_clients_sweep (pre ++ rest) =
        (handle_clients_sweep rest).map (fun r => pre ++ r) := by
  induction pre with
  | nil =>
    intro rest _
    cases h : handle_clients_sweep rest <;> simp [h, Except.map]
  | cons c pre ih =>
    intro rest hok
    have hc : c.behavior = ConnBehavior.ok := hok c (List.mem_cons_self c pre)
    rw [List.cons_append]
    cases htail : pre ++ rest with
    | nil =>
      obtain ⟨hp, hr⟩ := List.append_eq_nil.mp htail
      subst hp
      subst hr
      simp [handle_clients_sweep, hc, Except.map]
    | cons d rest2 =>
      have hun : handle_clients_sweep (c :: d :: rest2) =
          (handle_clients_sweep (d :: rest2)).map (fun r => c :: r) := by
        simp [handle_clients_sweep, hc]
      rw [hun, ← htail, ih rest (fun x hx => hok x (List.mem_cons_of_mem c hx))]
      cases h : handle_clients_sweep rest <;> simp [h, Except.map]

/-- C8 (amended): the event loop's per-connection handler catches only
`ConnectionError`.  A protocol-violation `ValueError` raised while
processing one connection escapes to the outer `except Exception` and
the whole agent process exits (`os._exit(1)`) — no connection is
removed and nothing else is served.  Only a `ConnectionError` removes
just that connection: the sweep keeps the others (with the quirk that
in-place removal makes the list iterator skip the immediately
following connection for the rest of that sweep, though it stays
registered). -/
theorem c8_protocol_violation_exits (pre post rest2 : List AConn) (c d : AConn)
    (hok : ∀ x ∈ pre, x.behavior = ConnBehavior.ok) :
    (c.behavior = ConnBehavior.protocolViolation →
      handle_clients_sweep (pre ++ c :: post) = Except.error "os._exit(1)") ∧
    (c.behavior = ConnBehavior.connectionLost →
      (post = [] → handle_clients_sweep (pre ++ c :: post) = Except.ok pre) ∧
      (post = d :: rest2 →
        handle_clients_sweep (pre ++ c :: post) =
          (handle_clients_sweep rest2).map (fun r => pre ++ d :: r))) := by
  rw [sweep_ok_front pre (c :: post) hok]
  constructor
  · intro hp
    cases post <;> simp [handle_clients_sweep, hp, Except.map]
  · intro hl
    constructor
    · intro hpost
      subst hpost
      simp [handle_clients_sweep, hl, Except.map]
    · intro hpost
      subst hpost
      have hun : handle_clients_sweep (c :: d :: rest2) =
          (handle_clients_sweep rest2).map (fun r => d :: r) := by
        simp [handle_clients_sweep, hl]
      rw [hun]
      cases h : handle_clients_sweep rest2 <;> simp [h, Except.map]

/-- Counterexample to C8 as stated: three connections, the middle one
raises a protocol-violation `ValueError`; instead of dropping only that
connection and serving the third, the loop's outer handler exits the
whole agent process. -/
theorem c8_value_error_kills_agent :
    handle_clients_sweep
        [⟨0, ConnBehavior.ok⟩, ⟨1, ConnBehavior.protocolViolation⟩, ⟨2, ConnBehavior.ok⟩] =
      Except.error "os._exit(1)" := by
  rfl

/-- Witness for C8: with one healthy connection before it, a lost
connection is simply removed and the sweep returns the rest. -/
theorem c8_protocol_violation_exits_witness :
    handle_clients_sweep [⟨0, ConnBehavior.ok⟩, ⟨1, ConnBehavior.connectionLost⟩] =
      Except.ok [⟨0, ConnBehavior.ok⟩] :=
  ((c8_protocol_violation_exits [⟨0, ConnBehavior.ok⟩] [] [] ⟨1, ConnBehavior.connectionLost⟩
      ⟨0, ConnBehavior.ok⟩ (by decide)).2 rfl).1 rfl

lemma readBE_beBytes : ∀ (k acc n : Nat) (rest : List Nat),
    readBE k acc (beBytes k n ++ rest) = Except.ok (acc * 256 ^ k + n % 256 ^ k, rest) := by
  intro k
  induction k with
  | zero =>
    intro acc n rest
    simp [beBytes, readBE, Nat.mod_one]
  | succ k ih =>
    intro acc n rest
    have hstep : readBE (k + 1) acc (beBytes (k + 1) n ++ rest) =
        readBE k (acc * 256 + (n >>> (8 * k)) % 256) (beBytes k n ++ rest) := rfl
    rw [hstep, ih]
    have hb : (n >>> (8 * k)) % 256 = n / 256 ^ k % 256 := by
      rw [Nat.shiftRight_eq_div_pow, Nat.pow_mul]
    have hmod : n % 256 ^ (k + 1) = n % 256 ^ k + 256 ^ k * (n / 256 ^ k % 256) := by
      rw [pow_succ]
      exact Nat.mod_mul
    rw [hb]
    congr 1
    rw [hmod, pow_succ]
    ring_nf

lemma readBE_small (k acc n : Nat) (rest : List Nat) (h : n < 256 ^ k) :
    readBE k acc (beBytes k n ++ rest) = Except.ok (acc * 256 ^ k + n, rest) := by
  rw [readBE_beBytes, Nat.mod_eq_of_lt h]

lemma readBE0 (k n : Nat) (rest : List Nat) (h : n < 256 ^ k) :
    readBE k 0 (beBytes k n ++ rest) = Except.ok (n, rest) := by
  rw [readBE_beBytes]
  simp [Nat.mod_eq_of_lt h]

lemma pow256_8 : (256 : Nat) ^ 8 = 18446744073709551616 := by norm_num

lemma pow256_4 : (256 : Nat) ^ 4 = 4294967296 := by norm_num

lemma pow256_3 : (256 : Nat) ^ 3 = 16777216 := by norm_num

lemma decNat64_enc (n : Nat) (rest : List Nat) (h : n < 18446744073709551616) :
    decNat64 (encNat64 n ++ rest) = Except.ok (n, rest) := by
  unfold decNat64 encNat64
  exact readBE0 8 n rest (by rw [pow256_8]; exact h)

lemma decInt_enc (i : Int) (rest : List Nat) (h : i.natAbs < 18446744073709551616) :
    decInt (encInt i ++ rest) = Except.ok (i, rest) := by
  have hread : readBE 8 0 (beBytes 8 i.natAbs ++ rest) = Except.ok (i.natAbs, rest) :=
    readBE0 8 i.natAbs rest (by rw [pow256_8]; exact h)
  by_cases hneg : i < 0
  · have henc : encInt i ++ rest = 1 :: (beBytes 8 i.natAbs ++ rest) := by
      simp [encInt, hneg]
    rw [henc]
    simp only [decInt, hread, Bind.bind, Except.bind]
    have hval : (if (1 : Nat) = 0 then (i.natAbs : Int) else -(i.natAbs : Int)) = i := by
      rw [if_neg (by norm_num)]
      omega
    rw [hval]
  · have henc : encInt i ++ rest = 0 :: (beBytes 8 i.natAbs ++ rest) := by
      simp [encInt, hneg]
    rw [henc]
    simp only [decInt, hread, Bind.bind, Except.bind, if_true]
    have hval : ((i.natAbs : Int)) = i := by omega
    rw [hval]

lemma char_toNat_lt (c : Char) : c.toNat < 16777216 := by
  have h := c.valid
  rcases h with h | ⟨_, h2⟩
  · have hlt : c.val.toNat < 55296 := h
    simp only [Char.toNat]
    omega
  · have hlt : c.val.toNat < 1114112 := h2
    simp only [Char.toNat]
    omega

lemma decChars_enc : ∀ (cs : List Char) (rest : List Nat),
    decChars cs.length (cs.flatMap encChar ++ rest) = Except.ok (cs, rest) := by
  intro cs
  induction cs with
  | nil => intro rest; simp [decChars]
  | cons c cs ih =>
    intro rest
    have hshape : (c :: cs).flatMap encChar ++ rest =
        beBytes 3 c.toNat ++ (cs.flatMap encChar ++ rest) := by
      simp [encChar]
    rw [List.length_cons, hshape]
    have hread : readBE 3 0 (beBytes 3 c.toNat ++ (cs.flatMap encChar ++ rest)) =
        Except.ok (c.toNat, cs.flatMap encChar ++ rest) :=
      readBE0 3 c.toNat _ (by rw [pow256_3]; exact char_toNat_lt c)
    simp only [decChars, hread, Bind.bind, Except.bind, ih, Char.ofNat_toNat]

lemma decString_enc (s : String) (rest : List Nat) (h : s.length < 4294967296) :
    decString (encString s ++ rest) = Except.ok (s, rest) := by
  have hd : s.data.length < 4294967296 := h
  have hshape : encString s ++ rest =
      beBytes 4 s.data.length ++ (s.data.flatMap encChar ++ rest) := by
    simp [encString, List.append_assoc]
  have hread : readBE 4 0 (beBytes 4 s.data.length ++ (s.data.flatMap encChar ++ rest)) =
      Except.ok (s.data.length, s.data.flatMap encChar ++ rest) :=
    readBE0 4 s.data.length _ (by rw [pow256_4]; exact hd)
  have hmk : String.mk s.data = s := rfl
  simp only [decString, hshape, hread, Bind.bind, Except.bind, decChars_enc, hmk]

lemma decStrings_enc : ∀ (l : List String) (rest : List Nat),
    (∀ s ∈ l, s.length < 4294967296) →
    decStrings l.length (l.flatMap encString ++ rest) = Except.ok (l, rest) := by
  intro l
  induction l with
  | nil => intro rest _; simp [decStrings]
  | cons s l ih =>
    intro rest hall
    have hshape : (s :: l).flatMap encString ++ rest =
        encString s ++ (l.flatMap encString ++ rest) := by
      simp
    rw [List.length_cons, hshape]
    have hs := decString_enc s (l.flatMap encString ++ rest)
      (hall s (List.mem_cons_self s l))
    simp only [decStrings, hs, Bind.bind, Except.bind,
      ih rest (fun x hx => hall x (List.mem_cons_of_mem s hx))]

lemma decStrList_enc (l : List String) (rest : List Nat)
    (hl : l.length < 4294967296) (hall : ∀ s ∈ l, s.length < 4294967296) :
    decStrList (encStrList l ++ rest) = Except.ok (l, rest) := by
  have hshape : encStrList l ++ rest =
      beBytes 4 l.length ++ (l.flatMap encString ++ rest) := by
    simp [encStrList, List.append_assoc]
  have hread : readBE 4 0 (beBytes 4 l.length ++ (l.flatMap encString ++ rest)) =
      Except.ok (l.length, l.flatMap encString ++ rest) :=
    readBE0 4 l.length _ (by rw [pow256_4]; exact hl)
  simp only [decStrList, hshape, hread, Bind.bind, Except.bind, decStrings_enc l rest hall]

lemma decodeFrame_frame (t len : Nat) (body : List Nat) (h4 : len < 4294967296) :
    decodeFrame (t :: beBytes 4 len ++ body) =
      if body.length < len then Except.error "invalid contents length"
      else from_raw t (body.take len) := by
  have hrecomb : ((((len >>> (8 * 3)) % 256) * 256 + (len >>> (8 * 2)) % 256) * 256 +
      (len >>> (8 * 1)) % 256) * 256 + (len >>> (8 * 0)) % 256 = len := by
    simp only [Nat.shiftRight_eq_div_pow]
    norm_num
    omega
  show (if body.length < ((((len >>> (8 * 3)) % 256) * 256 + (len >>> (8 * 2)) % 256) * 256 +
      (len >>> (8 * 1)) % 256) * 256 + (len >>> (8 * 0)) % 256 then
        Except.error "invalid contents length"
      else from_raw t (body.take (((((len >>> (8 * 3)) % 256) * 256 +
        (len >>> (8 * 2)) % 256) * 256 + (len >>> (8 * 1)) % 256) * 256 +
        (len >>> (8 * 0)) % 256))) = _
  rw [hrecomb]

lemma from_raw_payload (m : NetMsg) (hwf : wfNetMsg m) :
    from_raw m.get_type (payload m) = Except.ok (stripLogId m) := by
  cases m with
  | addRecord r =>
    obtain ⟨log, data, ts⟩ := r
    obtain ⟨hdl, hnl, hts⟩ := hwf
    have h1 : decString (encString log.log_name ++ (encString data ++ encInt ts)) =
        Except.ok (log.log_name, encString data ++ encInt ts) := decString_enc _ _ hnl
    have h2 : decString (encString data ++ encInt ts) = Except.ok (data, encInt ts) :=
      decString_enc _ _ hdl
    have h3 : decInt (encInt ts) = Except.ok (ts, []) := by
      simpa using decInt_enc ts [] hts
    simp [NetMsg.get_type, payload, from_raw, h1, h2, h3, exactly,
      Bind.bind, Except.bind, stripLogId]
  | getLogPosition log =>
    have h1 : decString (encString log.log_name) = Except.ok (log.log_name, []) := by
      simpa using decString_enc log.log_name [] hwf
    simp [NetMsg.get_type, payload, from_raw, h1, exactly, Bind.bind, Except.bind, stripLogId]
  | logPositionResponse log pos =>
    obtain ⟨hnl, hp⟩ := hwf
    have h1 : decString (encString log.log_name ++ encNat64 pos) =
        Except.ok (log.log_name, encNat64 pos) := decString_enc _ _ hnl
    have h2 : decNat64 (encNat64 pos) = Except.ok (pos, []) := by
      simpa using decNat64_enc pos [] hp
    simp [NetMsg.get_type, payload, from_raw, h1, h2, exactly,
      Bind.bind, Except.bind, stripLogId]
  | getLogContent log rid b e =>
    obtain ⟨hnl, hr, hb, he⟩ := hwf
    have h1 : decString (encString log.log_name ++ (encNat64 rid ++ (encNat64 b ++ encNat64 e))) =
        Except.ok (log.log_name, encNat64 rid ++ (encNat64 b ++ encNat64 e)) :=
      decString_enc _ _ hnl
    have h2 : decNat64 (encNat64 rid ++ (encNat64 b ++ encNat64 e)) =
        Except.ok (rid, encNat64 b ++ encNat64 e) := decNat64_enc _ _ hr
    have h3 : decNat64 (encNat64 b ++ encNat64 e) = Except.ok (b, encNat64 e) :=
      decNat64_enc _ _ hb
    have h4 : decNat64 (encNat64 e) = Except.ok (e, []) := by
      simpa using decNat64_enc e [] he
    simp [NetMsg.get_type, payload, from_raw, h1, h2, h3, h4, exactly,
      Bind.bind, Except.bind, stripLogId]
  | logContentStatus rid st =>
    have h1 : decNat64 (encNat64 rid ++ encInt (wstatusVal st)) =
        Except.ok (rid, encInt (wstatusVal st)) := decNat64_enc _ _ hwf
    have habs : (wstatusVal st).natAbs < 18446744073709551616 := by
      cases st <;> norm_num [wstatusVal]
    have h2 : decInt (encInt (wstatusVal st)) = Except.ok (wstatusVal st, []) := by
      simpa using decInt_enc (wstatusVal st) [] habs
    have h3 : wstatusOfVal (wstatusVal st) = Except.ok st := by
      cases st <;> rfl
    simp [NetMsg.get_type, payload, from_raw, h1, h2, h3, exactly,
      Bind.bind, Except.bind, stripLogId]
  | logContentData rid b e contents =>
    obtain ⟨hr, hb, he, hcl, hcs, hbe, hlen⟩ := hwf
    have h1 : decNat64 (encNat64 rid ++ (encNat64 b ++ (encNat64 e ++ encStrList contents))) =
        Except.ok (rid, encNat64 b ++ (encNat64 e ++ encStrList contents)) :=
      decNat64_enc _ _ hr
    have h2 : decNat64 (encNat64 b ++ (encNat64 e ++ encStrList contents)) =
        Except.ok (b, encNat64 e ++ encStrList contents) := decNat64_enc _ _ hb
    have h3 : decNat64 (encNat64 e ++ encStrList contents) =
        Except.ok (e, encStrList contents) := decNat64_enc _ _ he
    have h4 : decStrList (encStrList contents) = Except.ok (contents, []) := by
      simpa using decStrList_enc contents [] hcl hcs
    have hcond : ¬(e < b ∨ e - b + 1 ≠ contents.length) := by omega
    simp [NetMsg.get_type, payload, from_raw, h1, h2, h3, h4, exactly,
      Bind.bind, Except.bind, stripLogId, hcond]

/-- C7 (amended): for every well-formed message of each of the six
kinds, framing it as `[1 byte type][4 bytes big-endian length][payload]`
and decoding the frame back through `NetworkMessageMeta` and the kind's
`from_raw` restores every wire-schema field; the backend-assigned
`log_id` is not on the wire, so the decoded message carries
`Log(name)` with `id = None` (`stripLogId`). -/
theorem c7_framing_round_trip (m : NetMsg) (hwf : wfNetMsg m)
    (hlen : (payload m).length < 4294967296) :
    (serialize m).bind decodeFrame = Except.ok (stripLogId m) := by
  have ht : ¬ (255 < m.get_type) := by cases m <;> simp [NetMsg.get_type]
  have hser : serialize m =
      Except.ok (m.get_type :: beBytes 4 (payload m).length ++ payload m) := by
    unfold serialize
    rw [if_neg ht, if_neg (by omega)]
  rw [hser]
  show decodeFrame (m.get_type :: beBytes 4 (payload m).length ++ payload m) = _
  rw [decodeFrame_frame _ _ _ hlen, if_neg (lt_irrefl _), List.take_length,
    from_raw_payload m hwf]

/-- Counterexample to C7 as stated: a `GetLogContent` message whose
`Log` carries the backend-assigned id `"L1"` does not round-trip to an
equal message — the wire `Log` schema has only the name, and
`parse_log` rebuilds `Log(name)` with `id = None`. -/
theorem c7_log_id_not_round_tripped :
    (serialize (NetMsg.getLogContent ⟨"a", some "L1"⟩ 1 2 3)).bind decodeFrame ≠
        Except.ok (NetMsg.getLogContent ⟨"a", some "L1"⟩ 1 2 3) ∧
      (serialize (NetMsg.getLogContent ⟨"a", some "L1"⟩ 1 2 3)).bind decodeFrame =
        Except.ok (NetMsg.getLogContent ⟨"a", none⟩ 1 2 3) := by
  constructor
  · decide
  · decide

/-- Witness for C7 at a concrete `LogContentData` message. -/
theorem c7_framing_round_trip_witness :
    (serialize (NetMsg.logContentData 1 2 3 ["a", "b"])).bind decodeFrame =
      Except.ok (stripLogId (NetMsg.logContentData 1 2 3 ["a", "b"])) :=
  c7_framing_round_trip (NetMsg.logContentData 1 2 3 ["a", "b"]) (by refine by simp [wfNetMsg]; exact ⟨by decide, by decide⟩) (by decide)

end LFB
